import Mathlib

/-!
Shallow embedding of `distancematrix/calculator.py` (class `Calculator` and the
module-level helper `_ratio_to_int`), together with proofs about the embedded
definitions.

Modelling conventions:
* Python machine floats used as progress ratios are modelled as rationals `ℚ`;
  Python ints are `Int`.
* Distance values flowing from generators to consumers are opaque: they are
  either a finite number, `inf` (the `np.inf` written by the trivial-match
  masking) or `nan` (the fill value of the scratch buffers).  The orchestrator
  never inspects them.
* `series` and `query` enter the orchestrator only through their shapes
  (`dims x datapoints`); the data itself is handed verbatim to the external
  generators, so shapes suffice for the orchestrator's own behaviour.
  Inputs are taken after `np.atleast_2d`, i.e. already of rank 2, hence the
  `ndim != 2` checks of lines 38-41 of the source can never fire here.
* External generators and consumers are parameters (`GenEnv`): each call they
  receive either returns a value or raises (modelled with `Except`).
* The cancellation helper `interrupt_catcher` is an external collaborator; runs
  are modelled without an interrupt request (`is_interrupted()` always false).
-/

/-- A single distance value as seen by the orchestrator: a finite number, the
positive infinity written by trivial-match masking, or the NaN fill value. -/
inductive Val where
  | num (q : ℚ)
  | inf
  | nan
deriving Repr, DecidableEq

/-- Argument of `_ratio_to_int`: a Python `int`, a Python `float` (modelled as
`ℚ`), or a value of any other type. -/
inductive RatioOrInt where
  | int (n : Int)
  | float (q : ℚ)
  | other
deriving Repr, DecidableEq

/-- State of a `Calculator` instance (the fields assigned in `__init__`,
`add_generator` and `add_consumer`).  Generators are identified by their
insertion position, so only their count is kept; each consumer is kept as its
ordered list of subscribed generator ids. -/
structure Calc where
  nDim : Nat
  m : Int
  seriesLen : Nat
  queryLen : Nat
  selfJoin : Bool
  numSeriesSubseq : Int
  numQuerySubseq : Int
  trivialMatchBuffer : Int
  numGens : Nat
  consumers : List (List Nat)
  lastColumnCalculated : Int
  diagonalCalcOrder : List Int
  diagonalCalcListNextIndex : Nat
  diagonalValuesCalculated : Int
  diagonalValuesTotal : Int
deriving Repr, DecidableEq

/-- `n` consecutive integers starting at `a`. -/
def intRangeGo : Nat → Int → List Int
  | 0, _ => []
  | n + 1, a => a :: intRangeGo n (a + 1)

/-- `np.arange(a, b)` on integers: the list `a, a+1, ..., b-1` (empty when
`b <= a`). -/
def intRange (a b : Int) : List Int := intRangeGo (b - a).toNat a

/-- Modelled from the spec: the fixed-seed pseudo-random draw sequence behind
`random.shuffle(..., random.Random(0).random)`.  The Python standard library's
Mersenne Twister is not part of the sources; per the spec (design notes) the
exact permutation is implementation-defined and only needs to be deterministic,
so a deterministic linear congruential step stands in for the seeded stream. -/
def lcgNext (seed : Nat) : Nat := (seed * 1103515245 + 12345) % 2147483648

/-- Modelled from the spec: deterministic Fisher-Yates style shuffle driven by
`lcgNext`, consuming `fuel` positions.  With `fuel = l.length` this permutes
the whole list. -/
def shuffleGo : Nat → Nat → List Int → List Int
  | 0, _, l => l
  | _ + 1, _, [] => []
  | fuel + 1, seed, x :: xs =>
      let l := x :: xs
      let j := seed % l.length
      l.getD j 0 :: shuffleGo fuel (lcgNext seed) (l.eraseIdx j)

/-- Modelled from the spec: `random.shuffle(arr, random.Random(0).random)` —
a deterministic permutation fixed by the seed value 0. -/
def shuffleSeed0 (l : List Int) : List Int := shuffleGo l.length 0 l

/-- Modelled from the spec: `distancematrix.util.diag_length` is an external
collaborator whose sources are not included; per the spec it is the pure
function returning the cell count of diagonal `k` of a
`num_query_subseq x num_series_subseq` grid (`k = 0` the main diagonal,
positive toward increasing series index, negative toward increasing query
index), i.e. the number of pairs `(i, j)` with `0 <= i < q`, `0 <= j < s`,
`j - i = k`. -/
def diagLength (q s k : Int) : Int :=
  max 0 (min (q + min k 0) (s - max k 0))

/-- `_ratio_to_int(ratio_or_result, maximum)` (lines 211-221): floats in
`[0, 1]` resolve by `ceil` against `maximum`, ints pass through, anything else
is rejected. -/
def ratioToInt (ratioOrResult : RatioOrInt) (maximum : Int) : Except String Int :=
  match ratioOrResult with
  | .float q =>
      if q < 0 ∨ q > 1 then .error "Value should be in range [0, 1]."
      else .ok ⌈q * (maximum : ℚ)⌉
  | .int n => .ok n
  | .other => .error "Invalid type, should be int or float."

namespace Calculator

/-- `Calculator.__init__(m, series, query, trivial_match_buffer)` with
`series` and `query` given by shape `(dims, datapoints)`; `query = none` is a
self-join.  Returns the initialised state or the raised error. -/
def init (m : Int) (series : Nat × Nat) (query : Option (Nat × Nat))
    (trivialMatchBuffer : Option Int) : Except String Calc :=
  let selfJoin := query.isNone
  let q := query.getD series
  if series.1 ≠ q.1 then .error "Dimensions of series and query do not match."
  else
    let numS : Int := (series.2 : Int) - m + 1
    let numQ : Int := (q.2 : Int) - m + 1
    let tmbE : Except String Int :=
      if selfJoin then
        let tmb := trivialMatchBuffer.getD (Int.fdiv m 2)
        if -1 ≤ tmb ∧ tmb < numS then .ok tmb
        else .error "Invalid value for trivial_match_buffer"
      else .ok (-1)
    match tmbE with
    | .error e => .error e
    | .ok tmb =>
        let candidates : List Int :=
          if selfJoin then intRange (tmb + 1) numS
          else intRange (-numQ + 1) numS
        let total : Int :=
          if selfJoin then
            let temp := numS - tmb - 1
            (temp * (temp + 1)) / 2
          else numQ * numS
        .ok { nDim := series.1
              m := m
              seriesLen := series.2
              queryLen := q.2
              selfJoin := selfJoin
              numSeriesSubseq := numS
              numQuerySubseq := numQ
              trivialMatchBuffer := tmb
              numGens := 0
              consumers := []
              lastColumnCalculated := -1
              diagonalCalcOrder := shuffleSeed0 candidates
              diagonalCalcListNextIndex := 0
              diagonalValuesCalculated := 0
              diagonalValuesTotal := total }

end Calculator

namespace Calc

/-- `Calculator.add_generator(input_dim, generator)`: range-checks the
dimension and appends the bound generator (the external `generator.prepare`
call is outside the orchestrator).  The new generator's id is the previous
count. -/
def addGenerator (s : Calc) (inputDim : Int) : Except String Calc :=
  if inputDim < 0 ∨ inputDim ≥ (s.nDim : Int) then
    .error "Invalid input_dim"
  else .ok { s with numGens := s.numGens + 1 }

/-- `Calculator.add_consumer(generator_ids, consumer)`: stores the ordered
subscription list; the ids are not validated here (the external
`consumer.initialise` call is outside the orchestrator). -/
def addConsumer (s : Calc) (generatorIds : List Nat) : Calc :=
  { s with consumers := s.consumers ++ [generatorIds] }

/-- `list(set(id for id_list in self._consumers.values() for id in id_list))`:
the set of generator ids needed by at least one consumer.  CPython's set
iteration order is an implementation detail; it is modelled as first-occurrence
order, which no orchestrator-visible behaviour depends on (each needed id's
buffer row is written independently). -/
def neededIds (s : Calc) : List Nat := (s.consumers.flatMap (fun l => l)).dedup

end Calc

/-- One delivery to a consumer: the consumer's registration index, the column
index (for `process_column`) or diagonal offset (for `process_diagonal`), and
the delivered sub-buffer (one row per subscribed channel). -/
def Delivery : Type := Nat × Int × List (List Val)

instance : DecidableEq Delivery := by unfold Delivery; infer_instance

/-- Outcome of a calculation entry point: the final orchestrator state plus the
ordered list of deliveries made; `err` is an uncaught exception escaping the
call, carrying the state and the deliveries completed before the raise. -/
inductive RunResult where
  | ok (s : Calc) (trace : List Delivery)
  | err (e : String) (s : Calc) (trace : List Delivery)
deriving DecidableEq

/-- Final state of a run, whether it finished or raised. -/
def RunResult.state : RunResult → Calc
  | .ok s _ => s
  | .err _ s _ => s

/-- Deliveries completed by a run, whether it finished or raised. -/
def RunResult.trace : RunResult → List Delivery
  | .ok _ tr => tr
  | .err _ _ tr => tr

/-- Whether a run finished without raising. -/
def RunResult.isOk : RunResult → Bool
  | .ok _ _ => true
  | .err _ _ _ => false

/-- Prefix the trace of a run with earlier deliveries (used to assemble the
trace of a loop from the deliveries of its first unit and the rest of the
run). -/
def RunResult.prepend (ds : List Delivery) : RunResult → RunResult
  | .ok s tr => .ok s (ds ++ tr)
  | .err e s tr => .err e s (ds ++ tr)

@[simp] theorem RunResult.state_prepend (ds : List Delivery) (r : RunResult) :
    (r.prepend ds).state = r.state := by cases r <;> rfl

@[simp] theorem RunResult.trace_prepend (ds : List Delivery) (r : RunResult) :
    (r.prepend ds).trace = ds ++ r.trace := by cases r <;> rfl

@[simp] theorem RunResult.isOk_prepend (ds : List Delivery) (r : RunResult) :
    (r.prepend ds).isOk = r.isOk := by cases r <;> rfl

/-- The external generators and consumers: `genCol id c` / `genDiag id k` is
generator `id` computing column `c` / diagonal `k` (returning the values as a
function of the position, or raising); `consCol i c` / `consDiag i k` is
consumer `i` processing that unit (its side effects are external; only
success or raise is visible to the orchestrator). -/
structure GenEnv where
  genCol : Nat → Int → Except String (Nat → Val)
  genDiag : Nat → Int → Except String (Nat → Val)
  consCol : Nat → Int → Except String Unit
  consDiag : Nat → Int → Except String Unit

/-- An environment whose generators are pure value tables and whose consumers
never raise. -/
def pureEnv (g dg : Nat → Int → Nat → Val) : GenEnv where
  genCol := fun id c => .ok (g id c)
  genDiag := fun id k => .ok (dg id k)
  consCol := fun _ _ => .ok ()
  consDiag := fun _ _ => .ok ()

/-- The generator-query phase of one unit (lines 139-141 / 188-190): for each
needed id, look the generator up (an out-of-range subscription id fails here)
and invoke it; the first raise propagates. -/
def genPhase (numGens : Nat) (call : Nat → Except String (Nat → Val)) :
    List Nat → Except String Unit
  | [] => .ok ()
  | id :: rest =>
      if numGens ≤ id then .error "IndexError: list index out of range"
      else
        match call id with
        | .error e => .error e
        | .ok _ => genPhase numGens call rest

/-- The row of values generator `id` produced for the current unit (the slice
of the scratch buffer written at line 141 / 190); only consulted after
`genPhase` succeeded. -/
def rowFun (call : Nat → Except String (Nat → Val)) (id : Nat) : Nat → Val :=
  match call id with
  | .ok f => f
  | .error _ => fun _ => Val.nan

/-- Lower bound `trivial_match_start = max(0, current_column - buffer)` of the
masked window (line 144). -/
def maskLo (s : Calc) (c : Int) : Int := max 0 (c - s.trivialMatchBuffer)

/-- Effective upper bound of the masked window: `trivial_match_end =
current_column + buffer + 1` (line 145), with Python slice semantics — a
negative stop index counts from the end of the row. -/
def maskHi (s : Calc) (c : Int) : Int :=
  let e := c + s.trivialMatchBuffer + 1
  if e < 0 then s.numQuerySubseq + e else e

/-- Entry `j` of the assembled buffer row of generator `id` for column `c`:
the generator's value, overwritten with `np.inf` on the trivial-match window
when `trivial_match_buffer >= 0` (lines 143-146). -/
def columnEntry (env : GenEnv) (s : Calc) (c : Int) (id j : Nat) : Val :=
  if 0 ≤ s.trivialMatchBuffer ∧ maskLo s c ≤ (j : Int) ∧ (j : Int) < maskHi s c then
    Val.inf
  else rowFun (fun i => env.genCol i c) id j

/-- The full buffer row (length `num_query_subseq`) of generator `id` for
column `c`, after masking. -/
def columnRow (env : GenEnv) (s : Calc) (c : Int) (id : Nat) : List Val :=
  (List.range s.numQuerySubseq.toNat).map (columnEntry env s c id)

/-- `column_dists[generator_ids, :]` (line 149): the channel rows a consumer
subscribed to, in subscription order. -/
def columnPayload (env : GenEnv) (s : Calc) (c : Int) (ids : List Nat) :
    List (List Val) :=
  ids.map (columnRow env s c)

/-- The consumer-notification phase of one column (lines 148-149): consumers
in registration order (`i` the index of the first one), each receiving its
sub-buffer; a raise propagates, keeping the deliveries made so far. -/
def consPhaseCol (env : GenEnv) (s : Calc) (c : Int) :
    Nat → List (List Nat) → Except (String × List Delivery) (List Delivery)
  | _, [] => .ok []
  | i, ids :: rest =>
      match env.consCol i c with
      | .error e => .error (e, [])
      | .ok _ =>
          let d : Delivery := (i, c, columnPayload env s c ids)
          match consPhaseCol env s c (i + 1) rest with
          | .ok ds => .ok (d :: ds)
          | .error (e, ds) => .error (e, d :: ds)

/-- The `while current_column < upto` loop of `calculate_columns` (lines
137-152), with the iteration count `(upto - current_column).toNat` made
explicit as fuel.  Each iteration: generator phase, masking, consumer phase,
then `_last_column_calculated = max(current_column, _last_column_calculated)`
and `current_column += 1`; a raise aborts with the cursor not yet advanced for
the failing column. -/
def calcColumnsGo (env : GenEnv) : Nat → Calc → Int → RunResult
  | 0, s, _ => .ok s []
  | fuel + 1, s, c =>
      match genPhase s.numGens (fun id => env.genCol id c) s.neededIds with
      | .error e => .err e s []
      | .ok _ =>
          match consPhaseCol env s c 0 s.consumers with
          | .error (e, ds) => .err e s ds
          | .ok ds =>
              let s' := { s with lastColumnCalculated := max c s.lastColumnCalculated }
              (calcColumnsGo env fuel s' (c + 1)).prepend ds

/-- `Calculator.calculate_columns(start, upto)` (lines 112-152): resolve
`start` (defaulting to one past the high-water mark) and `upto` against
`num_series_subseq`, allocate the scratch buffer (`np.full` rejects a negative
`num_query_subseq`), then run the column loop. -/
def calcColumns (env : GenEnv) (s : Calc) (start : Option RatioOrInt)
    (upto : RatioOrInt) : RunResult :=
  let startV : RatioOrInt :=
    match start with
    | none => .int (s.lastColumnCalculated + 1)
    | some v => v
  match ratioToInt startV s.numSeriesSubseq with
  | .error e => .err e s []
  | .ok st =>
      match ratioToInt upto s.numSeriesSubseq with
      | .error e => .err e s []
      | .ok up =>
          if s.numQuerySubseq < 0 then
            .err "ValueError: negative dimensions are not allowed" s []
          else calcColumnsGo env (up - st).toNat s st

/-- Width of the diagonal slice `diag_dists[:, :diagonal_length]` (line 186):
the scratch buffer is `min(num_query_subseq, num_series_subseq)` wide and the
slice clamps to it. -/
def diagWidth (s : Calc) (k : Int) : Nat :=
  (min (diagLength s.numQuerySubseq s.numSeriesSubseq k)
    (min s.numQuerySubseq s.numSeriesSubseq)).toNat

/-- The buffer row of generator `id` for diagonal `k` (written at line 190);
only consulted after `genPhase` succeeded. -/
def diagRow (env : GenEnv) (s : Calc) (k : Int) (id : Nat) : List Val :=
  (List.range (diagWidth s k)).map (rowFun (fun i => env.genDiag i k) id)

/-- `diagonal_values[generator_ids, :]` (line 193): the channel rows a
consumer subscribed to, in subscription order. -/
def diagPayload (env : GenEnv) (s : Calc) (k : Int) (ids : List Nat) :
    List (List Val) :=
  ids.map (diagRow env s k)

/-- The consumer-notification phase of one diagonal (lines 192-196): each
consumer receives offset `k`, and in self-join mode immediately afterwards the
identical buffer for offset `-k`; either call may raise. -/
def consPhaseDiag (env : GenEnv) (s : Calc) (k : Int) :
    Nat → List (List Nat) → Except (String × List Delivery) (List Delivery)
  | _, [] => .ok []
  | i, ids :: rest =>
      match env.consDiag i k with
      | .error e => .error (e, [])
      | .ok _ =>
          let d : Delivery := (i, k, diagPayload env s k ids)
          if s.selfJoin then
            match env.consDiag i (-k) with
            | .error e => .error (e, [d])
            | .ok _ =>
                let d' : Delivery := (i, -k, diagPayload env s k ids)
                match consPhaseDiag env s k (i + 1) rest with
                | .ok ds => .ok (d :: d' :: ds)
                | .error (e, ds) => .error (e, d :: d' :: ds)
          else
            match consPhaseDiag env s k (i + 1) rest with
            | .ok ds => .ok (d :: ds)
            | .error (e, ds) => .error (e, d :: ds)

/-- The `while self._diagonal_values_calculated < values_needed` loop of
`calculate_diagonals` (lines 179-199).  The fuel is the number of offsets left
in the precomputed order (`order.length - next_index`, maintained by the
caller); exhausting it with the target still unmet is the `IndexError` of the
out-of-range list access at line 184.  Each iteration: next offset, generator
phase, consumer phase (with the self-join mirror), then the cumulative value
counter and the order cursor advance. -/
def calcDiagonalsGo (env : GenEnv) : Nat → Calc → Int → RunResult
  | fuel, s, needed =>
      if s.diagonalValuesCalculated < needed then
        match fuel with
        | 0 => .err "IndexError: index out of range" s []
        | fuel + 1 =>
            match s.diagonalCalcOrder.get? s.diagonalCalcListNextIndex with
            | none => .err "IndexError: index out of range" s []
            | some k =>
                let len := diagLength s.numQuerySubseq s.numSeriesSubseq k
                match genPhase s.numGens (fun id => env.genDiag id k) s.neededIds with
                | .error e => .err e s []
                | .ok _ =>
                    match consPhaseDiag env s k 0 s.consumers with
                    | .error (e, ds) => .err e s ds
                    | .ok ds =>
                        let s' := { s with
                          diagonalValuesCalculated := s.diagonalValuesCalculated + len,
                          diagonalCalcListNextIndex := s.diagonalCalcListNextIndex + 1 }
                        (calcDiagonalsGo env fuel s' needed).prepend ds
      else .ok s []

/-- `Calculator.calculate_diagonals(partial_spec)` (lines 162-199): allocate
the scratch buffer (`np.full` rejects a negative
`min(num_query_subseq, num_series_subseq)`), resolve the value target against
the total budget, then run the diagonal loop. -/
def calcDiagonals (env : GenEnv) (s : Calc) (amountSpec : RatioOrInt) : RunResult :=
  if min s.numQuerySubseq s.numSeriesSubseq < 0 then
    .err "ValueError: negative dimensions are not allowed" s []
  else
    match ratioToInt amountSpec s.diagonalValuesTotal with
    | .error e => .err e s []
    | .ok needed =>
        calcDiagonalsGo env
          (s.diagonalCalcOrder.length - s.diagonalCalcListNextIndex) s needed

/-! ### Column traversal: trace characterisation -/

/-- The deliveries of a single column `c`: every consumer, in registration
order, receives its subscribed-channel sub-buffer. -/
def columnDeliverAll (env : GenEnv) (s : Calc) (c : Int) : List Delivery :=
  s.consumers.enum.map (fun p => (p.1, c, columnPayload env s c p.2))

/-- The deliveries of `n` consecutive columns starting at `c`. -/
def columnTrace (env : GenEnv) (s : Calc) : Int → Nat → List Delivery
  | _, 0 => []
  | c, n + 1 => columnDeliverAll env s c ++ columnTrace env s (c + 1) n

/-- The column high-water mark after `n` consecutive columns starting at `c`
have completed, starting from mark `l`. -/
def lastMark (l c : Int) (n : Nat) : Int :=
  if n = 0 then l else max (c + n - 1) l

/-- Every consumer subscription of `s` is a valid generator id. -/
def ConsumersValid (s : Calc) : Prop :=
  ∀ ids ∈ s.consumers, ∀ id ∈ ids, id < s.numGens

instance (s : Calc) : Decidable (ConsumersValid s) := by
  unfold ConsumersValid; infer_instance

theorem neededIds_lt (s : Calc) (hv : ConsumersValid s) :
    ∀ id ∈ s.neededIds, id < s.numGens := by
  intro id hid
  rw [Calc.neededIds, List.mem_dedup, List.mem_flatMap] at hid
  obtain ⟨ids, hids, hmem⟩ := hid
  exact hv ids hids id hmem

theorem genPhase_ok (numGens : Nat) (f : Nat → Nat → Val) :
    ∀ ids : List Nat, (∀ id ∈ ids, id < numGens) →
      genPhase numGens (fun id => .ok (f id)) ids = .ok () := by
  intro ids
  induction ids with
  | nil => intro _; rfl
  | cons id rest ih =>
      intro h
      have hid := h id (List.mem_cons_self id rest)
      simp only [genPhase, if_neg (by omega : ¬ numGens ≤ id)]
      exact ih (fun i hi => h i (List.mem_cons_of_mem id hi))

theorem pureEnv_consCol (g dg : Nat → Int → Nat → Val) (i : Nat) (c : Int) :
    (pureEnv g dg).consCol i c = .ok () := rfl

theorem pureEnv_consDiag (g dg : Nat → Int → Nat → Val) (i : Nat) (k : Int) :
    (pureEnv g dg).consDiag i k = .ok () := rfl

theorem consPhaseCol_pure (g dg : Nat → Int → Nat → Val) (s : Calc) (c : Int) :
    ∀ (ls : List (List Nat)) (i : Nat),
      consPhaseCol (pureEnv g dg) s c i ls =
        .ok ((ls.enumFrom i).map
          (fun p => (p.1, c, columnPayload (pureEnv g dg) s c p.2))) := by
  intro ls
  induction ls with
  | nil => intro i; rfl
  | cons ids rest ih =>
      intro i
      rw [consPhaseCol, pureEnv_consCol, ih (i + 1)]
      simp only [List.enumFrom, List.map_cons]

theorem columnPayload_setLast (env : GenEnv) (s : Calc) (x c : Int)
    (ids : List Nat) :
    columnPayload env { s with lastColumnCalculated := x } c ids =
      columnPayload env s c ids := rfl

theorem columnTrace_setLast (env : GenEnv) (s : Calc) (x : Int) :
    ∀ (n : Nat) (c : Int),
      columnTrace env { s with lastColumnCalculated := x } c n =
        columnTrace env s c n := by
  intro n
  induction n with
  | zero => intro c; rfl
  | succ n ih =>
      intro c
      simp only [columnTrace, ih (c + 1)]
      rfl

/-- The column loop, run on a pure environment with valid subscriptions,
never raises: it delivers exactly the columns `c, c+1, ..., c+n-1` in order
and pushes the high-water mark to `max(c+n-1, previous)`. -/
theorem calcColumnsGo_pure (g dg : Nat → Int → Nat → Val) :
    ∀ (n : Nat) (s : Calc) (c : Int), ConsumersValid s →
      calcColumnsGo (pureEnv g dg) n s c =
        .ok { s with lastColumnCalculated := lastMark s.lastColumnCalculated c n }
          (columnTrace (pureEnv g dg) s c n) := by
  intro n
  induction n with
  | zero =>
      intro s c _
      rfl
  | succ n ih =>
      intro s c hv
      have hgen : genPhase s.numGens (fun id => (pureEnv g dg).genCol id c) s.neededIds
          = .ok () := genPhase_ok s.numGens (fun id j => g id c j) s.neededIds (neededIds_lt s hv)
      rw [calcColumnsGo, hgen, consPhaseCol_pure g dg s c s.consumers 0]
      have hv' : ConsumersValid { s with lastColumnCalculated := max c s.lastColumnCalculated } := hv
      dsimp only
      rw [ih _ (c + 1) hv']
      rw [columnTrace_setLast]
      have hmark : lastMark (max c s.lastColumnCalculated) (c + 1) n =
          lastMark s.lastColumnCalculated c (n + 1) := by
        cases n with
        | zero => simp [lastMark]
        | succ n =>
            simp only [lastMark, if_neg (by omega : ¬ (n + 1 : Nat) = 0),
              if_neg (by omega : ¬ (n + 2 : Nat) = 0)]
            push_cast
            omega
      rw [hmark]
      rfl

/-- Splitting a run of consecutive columns splits the delivered trace. -/
theorem columnTrace_append (env : GenEnv) (s : Calc) :
    ∀ (n m : Nat) (c : Int),
      columnTrace env s c (n + m) =
        columnTrace env s c n ++ columnTrace env s (c + n) m := by
  intro n
  induction n with
  | zero => intro m c; simp [columnTrace]
  | succ n ih =>
      intro m c
      have : n + 1 + m = (n + m) + 1 := by omega
      rw [this]
      simp only [columnTrace, ih m (c + 1), List.append_assoc]
      congr 2
      push_cast
      ring_nf

/-- `calculate_columns` with integer `start` and `upto`, pure environment,
valid subscriptions, non-negative `num_query_subseq`: the characterised run. -/
theorem calcColumns_int_pure (g dg : Nat → Int → Nat → Val) (s : Calc)
    (hv : ConsumersValid s) (hq : 0 ≤ s.numQuerySubseq) (a b : Int) :
    calcColumns (pureEnv g dg) s (some (.int a)) (.int b) =
      .ok { s with lastColumnCalculated := lastMark s.lastColumnCalculated a (b - a).toNat }
        (columnTrace (pureEnv g dg) s a (b - a).toNat) := by
  simp only [calcColumns, ratioToInt, if_neg (by omega : ¬ s.numQuerySubseq < 0)]
  exact calcColumnsGo_pure g dg (b - a).toNat s a hv

/-! ### Diagonal traversal: trace characterisation -/

/-- The deliveries of a single diagonal offset `k`: every consumer, in
registration order, receives its sub-buffer for offset `k`, immediately
followed — in self-join mode — by the identical buffer for offset `-k`. -/
def diagDeliverAll (env : GenEnv) (s : Calc) (k : Int) : List Delivery :=
  s.consumers.enum.flatMap (fun p =>
    (p.1, k, diagPayload env s k p.2) ::
      (if s.selfJoin then [(p.1, -k, diagPayload env s k p.2)] else []))

/-- The deliveries of a list of diagonal offsets, in order. -/
def diagTrace (env : GenEnv) (s : Calc) : List Int → List Delivery
  | [] => []
  | k :: ks => diagDeliverAll env s k ++ diagTrace env s ks

/-- Total `diag_length` of a list of offsets, against the grid of `s`. -/
def sumLens (s : Calc) (ks : List Int) : Int :=
  (ks.map (diagLength s.numQuerySubseq s.numSeriesSubseq)).sum

/-- The state after `j` diagonals of the pending order have completed: the
cumulative value counter grows by their total length and the order cursor
advances past them. -/
def diagAdvance (s : Calc) (j : Nat) : Calc :=
  { s with
    diagonalValuesCalculated :=
      s.diagonalValuesCalculated +
        sumLens s ((s.diagonalCalcOrder.drop s.diagonalCalcListNextIndex).take j),
    diagonalCalcListNextIndex := s.diagonalCalcListNextIndex + j }

theorem consPhaseDiag_pure (g dg : Nat → Int → Nat → Val) (s : Calc) (k : Int) :
    ∀ (ls : List (List Nat)) (i : Nat),
      consPhaseDiag (pureEnv g dg) s k i ls =
        .ok ((ls.enumFrom i).flatMap (fun p =>
          (p.1, k, diagPayload (pureEnv g dg) s k p.2) ::
            (if s.selfJoin then [(p.1, -k, diagPayload (pureEnv g dg) s k p.2)]
             else []))) := by
  intro ls
  induction ls with
  | nil => intro i; rfl
  | cons ids rest ih =>
      intro i
      rw [consPhaseDiag, pureEnv_consDiag]
      cases hs : s.selfJoin with
      | true =>
          rw [if_pos rfl, pureEnv_consDiag, ih (i + 1)]
          simp [hs, List.enumFrom]
      | false =>
          rw [if_neg (by simp), ih (i + 1)]
          simp [hs, List.enumFrom]

theorem diagPayload_adv (env : GenEnv) (s : Calc) (x : Int) (y : Nat) (k : Int)
    (ids : List Nat) :
    diagPayload env
      { s with diagonalValuesCalculated := x, diagonalCalcListNextIndex := y }
      k ids = diagPayload env s k ids := rfl

theorem diagTrace_adv (env : GenEnv) (s : Calc) (x : Int) (y : Nat) :
    ∀ ks : List Int,
      diagTrace env
        { s with diagonalValuesCalculated := x, diagonalCalcListNextIndex := y } ks =
      diagTrace env s ks := by
  intro ks
  induction ks with
  | nil => rfl
  | cons k ks ih =>
      simp only [diagTrace, ih]
      rfl

/-- The diagonal loop run on a pure environment with valid subscriptions:
it visits some prefix of the pending portion of the precomputed order, and the
result is fully characterised in terms of that prefix — cursors advance by
exactly the completed diagonals, the trace is the deliveries of the visited
offsets in order, the loop keeps going exactly while the target is unmet, and
it only ends without reaching the target by exhausting the order
(the `IndexError`). -/
theorem calcDiagonalsGo_pure (g dg : Nat → Int → Nat → Val) :
    ∀ (fuel : Nat) (s : Calc) (needed : Int), ConsumersValid s →
      fuel = s.diagonalCalcOrder.length - s.diagonalCalcListNextIndex →
      ∃ j : Nat,
        (calcDiagonalsGo (pureEnv g dg) fuel s needed).state = diagAdvance s j ∧
        (calcDiagonalsGo (pureEnv g dg) fuel s needed).trace =
          diagTrace (pureEnv g dg) s
            ((s.diagonalCalcOrder.drop s.diagonalCalcListNextIndex).take j) ∧
        (∀ i < j, s.diagonalValuesCalculated +
          sumLens s ((s.diagonalCalcOrder.drop s.diagonalCalcListNextIndex).take i)
            < needed) ∧
        ((calcDiagonalsGo (pureEnv g dg) fuel s needed).isOk = true →
          needed ≤ s.diagonalValuesCalculated +
            sumLens s ((s.diagonalCalcOrder.drop s.diagonalCalcListNextIndex).take j)) ∧
        ((calcDiagonalsGo (pureEnv g dg) fuel s needed).isOk = false →
          s.diagonalCalcOrder.drop (s.diagonalCalcListNextIndex + j) = [] ∧
          s.diagonalValuesCalculated +
            sumLens s ((s.diagonalCalcOrder.drop s.diagonalCalcListNextIndex).take j)
              < needed) := by
  intro fuel
  induction fuel with
  | zero =>
      intro s needed hv hfuel
      refine ⟨0, ?_⟩
      have hdrop : s.diagonalCalcOrder.drop s.diagonalCalcListNextIndex = [] := by
        apply List.drop_eq_nil_of_le
        omega
      by_cases hlt : s.diagonalValuesCalculated < needed
      · rw [calcDiagonalsGo, if_pos hlt]
        refine ⟨?_, ?_, ?_, ?_, ?_⟩
        · simp [RunResult.state, diagAdvance, sumLens]
        · simp [RunResult.trace, hdrop, diagTrace]
        · intro i hi; omega
        · intro h; simp [RunResult.isOk] at h
        · intro _
          constructor
          · rw [← List.drop_drop, hdrop]; rfl
          · simpa [hdrop, sumLens] using hlt
      · rw [calcDiagonalsGo, if_neg hlt]
        refine ⟨?_, ?_, ?_, ?_, ?_⟩
        · simp [RunResult.state, diagAdvance, sumLens]
        · simp [RunResult.trace, hdrop, diagTrace]
        · intro i hi; omega
        · intro _; simpa [hdrop, sumLens] using hlt
        · intro h; simp [RunResult.isOk] at h
  | succ fuel ih =>
      intro s needed hv hfuel
      by_cases hlt : s.diagonalValuesCalculated < needed
      case neg =>
        refine ⟨0, ?_⟩
        rw [calcDiagonalsGo, if_neg hlt]
        refine ⟨?_, ?_, ?_, ?_, ?_⟩
        · simp [RunResult.state, diagAdvance, sumLens]
        · simp [RunResult.trace, diagTrace, List.take_zero]
        · intro i hi; omega
        · intro _; simpa [sumLens] using hlt
        · intro h; simp [RunResult.isOk] at h
      case pos =>
        have hidx : s.diagonalCalcListNextIndex < s.diagonalCalcOrder.length := by
          omega
        set k := s.diagonalCalcOrder.get ⟨s.diagonalCalcListNextIndex, hidx⟩ with hk
        have hget : s.diagonalCalcOrder.get? s.diagonalCalcListNextIndex = some k := by
          simp [hk, List.get?_eq_getElem?, List.getElem?_eq_getElem hidx]
        have hgen : genPhase s.numGens (fun id => (pureEnv g dg).genDiag id k)
            s.neededIds = .ok () :=
          genPhase_ok s.numGens (fun id j => dg id k j) s.neededIds (neededIds_lt s hv)
        have hdropcons : s.diagonalCalcOrder.drop s.diagonalCalcListNextIndex =
            k :: s.diagonalCalcOrder.drop (s.diagonalCalcListNextIndex + 1) :=
          List.drop_eq_getElem_cons hidx
        rw [calcDiagonalsGo, if_pos hlt, hget]
        dsimp only
        rw [hgen, consPhaseDiag_pure g dg s k s.consumers 0]
        dsimp only
        set len := diagLength s.numQuerySubseq s.numSeriesSubseq k with hlen
        set s' : Calc := { s with
          diagonalValuesCalculated := s.diagonalValuesCalculated + len,
          diagonalCalcListNextIndex := s.diagonalCalcListNextIndex + 1 } with hs'
        have hv' : ConsumersValid s' := hv
        have hfuel' : fuel = s'.diagonalCalcOrder.length - s'.diagonalCalcListNextIndex := by
          simp only [hs']
          omega
        obtain ⟨j, hstate, htrace, hmin, hok, herr⟩ := ih s' needed hv' hfuel'
        have hsum : ∀ i : Nat,
            s'.diagonalValuesCalculated +
              sumLens s' ((s'.diagonalCalcOrder.drop s'.diagonalCalcListNextIndex).take i) =
            s.diagonalValuesCalculated +
              sumLens s ((s.diagonalCalcOrder.drop s.diagonalCalcListNextIndex).take (i + 1)) := by
          intro i
          simp only [hs', hdropcons, List.take_succ_cons, sumLens, List.map_cons,
            List.sum_cons]
          omega
        refine ⟨j + 1, ?_, ?_, ?_, ?_, ?_⟩
        · rw [RunResult.state_prepend, hstate]
          simp only [diagAdvance, hs', hdropcons, List.take_succ_cons, sumLens,
            List.map_cons, List.sum_cons, Calc.mk.injEq]
          and_intros <;> first | trivial | omega
        · rw [RunResult.trace_prepend, htrace, diagTrace_adv]
          rw [hdropcons, List.take_succ_cons, diagTrace]
          rfl
        · intro i hi
          cases i with
          | zero =>
              simpa [sumLens] using hlt
          | succ i' =>
              have h := hmin i' (by omega)
              rw [hsum i'] at h
              exact h
        · intro h
          rw [RunResult.isOk_prepend] at h
          have := hok h
          rw [hsum j] at this
          exact this
        · intro h
          rw [RunResult.isOk_prepend] at h
          obtain ⟨hdone, hbound⟩ := herr h
          constructor
          · have hidxeq : s.diagonalCalcListNextIndex + (j + 1) =
                s'.diagonalCalcListNextIndex + j := by
              simp only [hs']
              omega
            rw [hidxeq]
            simpa only [hs'] using hdone
          · rw [hsum j] at hbound
            exact hbound

/-! ### The shuffled order is a permutation of the candidate offsets -/

theorem perm_getD_cons_eraseIdx :
    ∀ (l : List Int) (j : Nat), j < l.length → l.Perm (l.getD j 0 :: l.eraseIdx j) := by
  intro l
  induction l with
  | nil => intro j hj; simp at hj
  | cons x xs ih =>
      intro j hj
      cases j with
      | zero => exact List.Perm.refl _
      | succ j =>
          have hj' : j < xs.length := by simpa using hj
          have step : (x :: xs).Perm (x :: xs.getD j 0 :: xs.eraseIdx j) :=
            List.Perm.cons x (ih j hj')
          exact step.trans (List.Perm.swap _ _ _)

theorem shuffleGo_perm : ∀ (fuel seed : Nat) (l : List Int), (shuffleGo fuel seed l).Perm l := by
  intro fuel
  induction fuel with
  | zero => intro seed l; exact List.Perm.refl _
  | succ fuel ih =>
      intro seed l
      cases l with
      | nil => exact List.Perm.refl _
      | cons x xs =>
          rw [shuffleGo]
          have hj : seed % (x :: xs).length < (x :: xs).length :=
            Nat.mod_lt _ (by simp)
          exact (List.Perm.cons _ (ih _ _)).trans
            (perm_getD_cons_eraseIdx (x :: xs) _ hj).symm

theorem shuffleSeed0_perm (l : List Int) : (shuffleSeed0 l).Perm l :=
  shuffleGo_perm l.length 0 l

/-! ### Facts about `intRange` and sums of `diagLength` -/

theorem mem_intRangeGo : ∀ (n : Nat) (a k : Int),
    k ∈ intRangeGo n a ↔ a ≤ k ∧ k < a + n := by
  intro n
  induction n with
  | zero =>
      intro a k
      simp only [intRangeGo, List.not_mem_nil, false_iff]
      omega
  | succ n ih =>
      intro a k
      simp only [intRangeGo, List.mem_cons, ih (a + 1) k]
      omega

theorem mem_intRange {k a b : Int} : k ∈ intRange a b ↔ a ≤ k ∧ k < b := by
  rw [intRange, mem_intRangeGo]
  omega

theorem intRange_succ_left {a b : Int} (h : a < b) :
    intRange a b = a :: intRange (a + 1) b := by
  have hn : (b - a).toNat = (b - (a + 1)).toNat + 1 := by omega
  rw [intRange, hn, intRangeGo, intRange]

theorem intRange_nil {a b : Int} (h : b ≤ a) : intRange a b = [] := by
  rw [intRange]
  have hz : (b - a).toNat = 0 := by omega
  rw [hz]
  rfl

theorem sum_map_ite_lt :
    ∀ (a b t : Int),
      ((intRange a b).map (fun k => if k < t then (1 : Int) else 0)).sum =
        max 0 (min b t - a) := by
  intro a b t
  by_cases hab : a < b
  case neg =>
    rw [intRange_nil (by omega)]
    simp
    omega
  case pos =>
    have hterm : (b - a).toNat = (b - (a + 1)).toNat + 1 := by omega
    rw [intRange_succ_left hab, List.map_cons, List.sum_cons, sum_map_ite_lt (a + 1) b t]
    by_cases h : a < t <;> simp [h] <;> omega
termination_by a b t => (b - a).toNat
decreasing_by omega

theorem sum_diagLength_selfjoin :
    ∀ (sN a : Int), 0 ≤ a → a ≤ sN →
      2 * ((intRange a sN).map (diagLength sN sN)).sum = (sN - a) * (sN - a + 1) := by
  intro sN a ha has
  by_cases hlt : a < sN
  case neg =>
    have : a = sN := by omega
    subst this
    rw [intRange_nil le_rfl]
    simp
  case pos =>
    rw [intRange_succ_left hlt, List.map_cons, List.sum_cons]
    have hterm : diagLength sN sN a = sN - a := by
      rw [diagLength]
      omega
    have ih := sum_diagLength_selfjoin sN (a + 1) (by omega) (by omega)
    rw [hterm]
    calc 2 * (sN - a + ((intRange (a + 1) sN).map (diagLength sN sN)).sum)
        = 2 * (sN - a) + 2 * ((intRange (a + 1) sN).map (diagLength sN sN)).sum := by ring
      _ = 2 * (sN - a) + (sN - (a + 1)) * (sN - (a + 1) + 1) := by rw [ih]
      _ = (sN - a) * (sN - a + 1) := by ring
termination_by sN a => (sN - a).toNat
decreasing_by omega

theorem sum_diagLength_full :
    ∀ (q sN : Int), 0 ≤ q → 0 ≤ sN →
      ((intRange (-q + 1) sN).map (diagLength q sN)).sum = q * sN := by
  intro q sN hq hs
  obtain ⟨nq, rfl⟩ : ∃ n : ℕ, q = (n : Int) := ⟨q.toNat, by omega⟩
  clear hq
  induction nq with
  | zero =>
      rw [List.sum_eq_zero, Nat.cast_zero, zero_mul]
      intro x hx
      rw [List.mem_map] at hx
      obtain ⟨k, hk, rfl⟩ := hx
      rw [mem_intRange] at hk
      rw [diagLength]
      omega
  | succ n ih =>
      by_cases hs1 : sN = 0
      case pos =>
        subst hs1
        rw [List.sum_eq_zero, mul_zero]
        intro x hx
        rw [List.mem_map] at hx
        obtain ⟨k, hk, rfl⟩ := hx
        rw [mem_intRange] at hk
        rw [diagLength]
        omega
      case neg =>
        have hs1' : 1 ≤ sN := by omega
        have hpeel : intRange (-((n : Int) + 1) + 1) sN =
            (-(n : Int)) :: intRange (-(n : Int) + 1) sN := by
          have h1 : -((n : Int) + 1) + 1 = -(n : Int) := by ring
          rw [h1, intRange_succ_left (by omega)]
        rw [Nat.cast_succ, hpeel, List.map_cons, List.sum_cons]
        have hhead : diagLength ((n : Int) + 1) sN (-(n : Int)) = 1 := by
          rw [diagLength]
          omega
        have hpoint : (intRange (-(n : Int) + 1) sN).map (diagLength ((n : Int) + 1) sN) =
            (intRange (-(n : Int) + 1) sN).map
              (fun k => diagLength (n : Int) sN k + (if k < sN - (n : Int) then 1 else 0)) := by
          apply List.map_congr_left
          intro k hk
          rw [mem_intRange] at hk
          simp only [diagLength]
          split <;> omega
        rw [hhead, hpoint, List.sum_map_add, ih, sum_map_ite_lt]
        have : max 0 (min sN (sN - (n : Int)) - (-(n : Int) + 1)) = sN - 1 := by omega
        rw [this]
        ring

/-! ### Failure behaviour and cursor monotonicity -/

/-- The high-water mark update `lastMark` steps through one completed
column. -/
theorem lastMark_step (l c : Int) (n : Nat) :
    lastMark (max c l) (c + 1) n = lastMark l c (n + 1) := by
  cases n with
  | zero => simp [lastMark]
  | succ n =>
      simp only [lastMark, if_neg (by omega : ¬ (n + 1 : Nat) = 0),
        if_neg (by omega : ¬ (n + 2 : Nat) = 0)]
      push_cast
      omega

/-- Whether the whole unit of work for column `c` (generator lookups and
calls, then all consumer notifications) completes without raising. -/
def columnUnitOk (env : GenEnv) (s : Calc) (c : Int) : Bool :=
  (genPhase s.numGens (fun id => env.genCol id c) s.neededIds).isOk &&
    (consPhaseCol env s c 0 s.consumers).isOk

/-- Whether the whole unit of work for diagonal offset `k` completes without
raising. -/
def diagUnitOk (env : GenEnv) (s : Calc) (k : Int) : Bool :=
  (genPhase s.numGens (fun id => env.genDiag id k) s.neededIds).isOk &&
    (consPhaseDiag env s k 0 s.consumers).isOk

theorem consPhaseCol_setLast (env : GenEnv) (s : Calc) (x c : Int) :
    ∀ (ls : List (List Nat)) (i : Nat),
      consPhaseCol env { s with lastColumnCalculated := x } c i ls =
        consPhaseCol env s c i ls := by
  intro ls
  induction ls with
  | nil => intro i; rfl
  | cons ids rest ih =>
      intro i
      rw [consPhaseCol, consPhaseCol]
      cases hcc : env.consCol i c with
      | error e => rfl
      | ok u =>
          cases u
          rw [ih (i + 1)]
          rfl

theorem consPhaseDiag_adv (env : GenEnv) (s : Calc) (x : Int) (y : Nat) (k : Int) :
    ∀ (ls : List (List Nat)) (i : Nat),
      consPhaseDiag env
        { s with diagonalValuesCalculated := x, diagonalCalcListNextIndex := y } k i ls =
        consPhaseDiag env s k i ls := by
  intro ls
  induction ls with
  | nil => intro i; rfl
  | cons ids rest ih =>
      intro i
      rw [consPhaseDiag, consPhaseDiag]
      cases hcc : env.consDiag i k with
      | error e => rfl
      | ok u =>
          cases u
          dsimp only
          by_cases hsj : s.selfJoin = true
          · rw [if_pos hsj, if_pos hsj]
            cases hcc2 : env.consDiag i (-k) with
            | error e => rfl
            | ok u2 =>
                cases u2
                rw [ih (i + 1)]
                rfl
          · rw [if_neg hsj, if_neg hsj, ih (i + 1)]
            rfl

theorem columnUnitOk_setLast (env : GenEnv) (s : Calc) (x c : Int) :
    columnUnitOk env { s with lastColumnCalculated := x } c =
      columnUnitOk env s c := by
  simp only [columnUnitOk]
  rw [consPhaseCol_setLast]
  rfl

theorem diagUnitOk_adv (env : GenEnv) (s : Calc) (x : Int) (y : Nat) (k : Int) :
    diagUnitOk env
      { s with diagonalValuesCalculated := x, diagonalCalcListNextIndex := y } k =
      diagUnitOk env s k := by
  simp only [diagUnitOk]
  rw [consPhaseDiag_adv]
  rfl

/-- The column high-water mark never decreases, whatever the environment does
and whether or not the loop raises. -/
theorem calcColumnsGo_last_mono (env : GenEnv) :
    ∀ (n : Nat) (s : Calc) (c : Int),
      s.lastColumnCalculated ≤ ((calcColumnsGo env n s c).state).lastColumnCalculated := by
  intro n
  induction n with
  | zero => intro s c; exact le_refl _
  | succ n ih =>
      intro s c
      rw [calcColumnsGo]
      cases hg : genPhase s.numGens (fun id => env.genCol id c) s.neededIds with
      | error e => exact le_refl _
      | ok u =>
          cases hc : consPhaseCol env s c 0 s.consumers with
          | error p =>
              obtain ⟨e0, ds0⟩ := p
              exact le_refl _
          | ok ds =>
              dsimp only
              rw [RunResult.state_prepend]
              exact le_trans (le_max_right c s.lastColumnCalculated)
                (ih { s with lastColumnCalculated := max c s.lastColumnCalculated } (c + 1))

/-- If the column loop raises, the raise happened inside the unit of some
column `c + k`: every earlier column's unit completed, that unit fails, and the
final state is exactly the starting state with the high-water mark advanced
over the `k` completed columns — the cursor is untouched by the failing
unit. -/
theorem calcColumnsGo_err (env : GenEnv) :
    ∀ (n : Nat) (s : Calc) (c : Int) (e : String) (s' : Calc) (tr : List Delivery),
      calcColumnsGo env n s c = .err e s' tr →
      ∃ k : Nat, k < n ∧
        (∀ i : Nat, i < k → columnUnitOk env s (c + (i : Int)) = true) ∧
        columnUnitOk env s (c + (k : Int)) = false ∧
        s' = { s with lastColumnCalculated := lastMark s.lastColumnCalculated c k } := by
  intro n
  induction n with
  | zero =>
      intro s c e s' tr h
      rw [calcColumnsGo] at h
      cases h
  | succ n ih =>
      intro s c e s' tr h
      rw [calcColumnsGo] at h
      cases hg : genPhase s.numGens (fun id => env.genCol id c) s.neededIds with
      | error e0 =>
          rw [hg] at h
          cases h
          refine ⟨0, by omega, ?_, ?_, ?_⟩
          · intro i hi; omega
          · simp [columnUnitOk, hg, Except.isOk, Except.toBool]
          · rfl
      | ok u =>
          cases u
          rw [hg] at h
          cases hc : consPhaseCol env s c 0 s.consumers with
          | error p =>
              obtain ⟨e0, ds0⟩ := p
              rw [hc] at h
              cases h
              refine ⟨0, by omega, ?_, ?_, ?_⟩
              · intro i hi; omega
              · simp [columnUnitOk, hg, hc, Except.isOk, Except.toBool]
              · rfl
          | ok ds =>
              rw [hc] at h
              dsimp only at h
              cases hrec : calcColumnsGo env n
                  { s with lastColumnCalculated := max c s.lastColumnCalculated } (c + 1) with
              | ok s2 tr2 =>
                  rw [hrec] at h
                  cases h
              | err e2 s2 tr2 =>
                  rw [hrec] at h
                  cases h
                  obtain ⟨k, hkn, hunits, hfail, hs2⟩ := ih _ (c + 1) _ _ _ hrec
                  refine ⟨k + 1, by omega, ?_, ?_, ?_⟩
                  · intro i hi
                    cases i with
                    | zero =>
                        simp [columnUnitOk, hg, hc, Except.isOk, Except.toBool]
                    | succ i =>
                        have hidxeq : c + ((i + 1 : Nat) : Int) = (c + 1) + (i : Int) := by
                          push_cast; ring
                        rw [hidxeq]
                        have := hunits i (by omega)
                        rwa [columnUnitOk_setLast] at this
                  · have hidxeq : c + ((k + 1 : Nat) : Int) = (c + 1) + (k : Int) := by
                      push_cast; ring
                    rw [hidxeq]
                    rwa [columnUnitOk_setLast] at hfail
                  · rw [hs2, lastMark_step]


theorem diagAdvance_zero (s : Calc) : diagAdvance s 0 = s := by
  simp [diagAdvance, sumLens]

theorem diagAdvance_succ (s : Calc)
    (hidx : s.diagonalCalcListNextIndex < s.diagonalCalcOrder.length) (j : Nat) :
    diagAdvance
      { s with
        diagonalValuesCalculated := s.diagonalValuesCalculated +
          diagLength s.numQuerySubseq s.numSeriesSubseq
            (s.diagonalCalcOrder.get ⟨s.diagonalCalcListNextIndex, hidx⟩),
        diagonalCalcListNextIndex := s.diagonalCalcListNextIndex + 1 } j =
      diagAdvance s (j + 1) := by
  have hdropcons : s.diagonalCalcOrder.drop s.diagonalCalcListNextIndex =
      s.diagonalCalcOrder.get ⟨s.diagonalCalcListNextIndex, hidx⟩ ::
        s.diagonalCalcOrder.drop (s.diagonalCalcListNextIndex + 1) :=
    List.drop_eq_getElem_cons hidx
  simp only [diagAdvance, hdropcons, List.take_succ_cons, sumLens, List.map_cons,
    List.sum_cons, Calc.mk.injEq]
  and_intros <;> first | trivial | omega

/-- If the diagonal loop raises, the raise happened inside the unit of the
`j`-th pending offset (or was the `IndexError` of running off the end of the
order): every earlier pending offset's unit completed, and the final state is
exactly the starting state with the two diagonal cursors advanced over the `j`
completed diagonals — the failing unit did not move them. -/
theorem calcDiagonalsGo_err (env : GenEnv) :
    ∀ (fuel : Nat) (s : Calc) (needed : Int) (e : String) (s2 : Calc)
      (tr : List Delivery),
      fuel = s.diagonalCalcOrder.length - s.diagonalCalcListNextIndex →
      calcDiagonalsGo env fuel s needed = .err e s2 tr →
      ∃ j : Nat,
        s2 = diagAdvance s j ∧
        (diagAdvance s j).diagonalValuesCalculated < needed ∧
        (∀ i : Nat, i < j → ∃ ki,
          s.diagonalCalcOrder.get? (s.diagonalCalcListNextIndex + i) = some ki ∧
          diagUnitOk env s ki = true) ∧
        (s.diagonalCalcOrder.get? (s.diagonalCalcListNextIndex + j) = none →
          e = "IndexError: index out of range") ∧
        (∀ kj, s.diagonalCalcOrder.get? (s.diagonalCalcListNextIndex + j) = some kj →
          diagUnitOk env s kj = false) := by
  intro fuel
  induction fuel with
  | zero =>
      intro s needed e s2 tr hfuel h
      rw [calcDiagonalsGo] at h
      by_cases hlt : s.diagonalValuesCalculated < needed
      case neg => rw [if_neg hlt] at h; cases h
      case pos =>
          rw [if_pos hlt] at h
          cases h
          have hnone : s.diagonalCalcOrder.get? s.diagonalCalcListNextIndex = none := by
            rw [List.get?_eq_getElem?, List.getElem?_eq_none]
            omega
          refine ⟨0, by rw [diagAdvance_zero], by rw [diagAdvance_zero]; exact hlt,
            ?_, ?_, ?_⟩
          · intro i hi; omega
          · intro _; rfl
          · intro kj hkj
            rw [Nat.add_zero, hnone] at hkj
            cases hkj
  | succ fuel ih =>
      intro s needed e s2 tr hfuel h
      rw [calcDiagonalsGo] at h
      by_cases hlt : s.diagonalValuesCalculated < needed
      case neg => rw [if_neg hlt] at h; cases h
      case pos =>
          rw [if_pos hlt] at h
          have hidx : s.diagonalCalcListNextIndex < s.diagonalCalcOrder.length := by
            omega
          have hget : s.diagonalCalcOrder.get? s.diagonalCalcListNextIndex =
              some (s.diagonalCalcOrder.get ⟨s.diagonalCalcListNextIndex, hidx⟩) := by
            simp [List.get?_eq_getElem?, List.getElem?_eq_getElem hidx]
          rw [hget] at h
          dsimp only at h
          cases hgen : genPhase s.numGens
              (fun id => env.genDiag id
                (s.diagonalCalcOrder.get ⟨s.diagonalCalcListNextIndex, hidx⟩))
              s.neededIds with
          | error e0 =>
              rw [hgen] at h
              cases h
              refine ⟨0, by rw [diagAdvance_zero], by rw [diagAdvance_zero]; exact hlt,
                ?_, ?_, ?_⟩
              · intro i hi; omega
              · intro hnone
                rw [Nat.add_zero, hget] at hnone
                cases hnone
              · intro kj hkj
                rw [Nat.add_zero, hget] at hkj
                cases hkj
                simp only [List.get_eq_getElem] at hgen
                simp [diagUnitOk, hgen, Except.isOk, Except.toBool]
          | ok u =>
              cases u
              rw [hgen] at h
              cases hcons : consPhaseDiag env s
                  (s.diagonalCalcOrder.get ⟨s.diagonalCalcListNextIndex, hidx⟩)
                  0 s.consumers with
              | error p =>
                  obtain ⟨e0, ds0⟩ := p
                  rw [hcons] at h
                  cases h
                  refine ⟨0, by rw [diagAdvance_zero],
                    by rw [diagAdvance_zero]; exact hlt, ?_, ?_, ?_⟩
                  · intro i hi; omega
                  · intro hnone
                    rw [Nat.add_zero, hget] at hnone
                    cases hnone
                  · intro kj hkj
                    rw [Nat.add_zero, hget] at hkj
                    cases hkj
                    simp only [List.get_eq_getElem] at hgen hcons
                    simp [diagUnitOk, hgen, hcons, Except.isOk, Except.toBool]
              | ok ds =>
                  rw [hcons] at h
                  dsimp only at h
                  cases hrec : calcDiagonalsGo env fuel
                      { s with
                        diagonalValuesCalculated := s.diagonalValuesCalculated +
                          diagLength s.numQuerySubseq s.numSeriesSubseq
                            (s.diagonalCalcOrder.get
                              ⟨s.diagonalCalcListNextIndex, hidx⟩),
                        diagonalCalcListNextIndex := s.diagonalCalcListNextIndex + 1 }
                      needed with
                  | ok s3 tr3 =>
                      rw [hrec] at h
                      cases h
                  | err e2 s3 tr3 =>
                      rw [hrec] at h
                      cases h
                      have hfuel2 : fuel =
                          s.diagonalCalcOrder.length - (s.diagonalCalcListNextIndex + 1) := by
                        omega
                      obtain ⟨j, hs2eq, hlt2, hunits, hnone2, hsome2⟩ :=
                        ih _ needed _ _ _ hfuel2 hrec
                      refine ⟨j + 1, ?_, ?_, ?_, ?_, ?_⟩
                      · exact hs2eq.trans (diagAdvance_succ s hidx j)
                      · rw [diagAdvance_succ s hidx j] at hlt2
                        exact hlt2
                      · intro i hi
                        cases i with
                        | zero =>
                            refine ⟨_, by rw [Nat.add_zero]; exact hget, ?_⟩
                            simp only [List.get_eq_getElem] at hgen hcons
                            simp [diagUnitOk, hgen, hcons, Except.isOk, Except.toBool]
                        | succ i =>
                            obtain ⟨ki, hki, hok⟩ := hunits i (by omega)
                            refine ⟨ki, ?_, ?_⟩
                            · have hixeq : s.diagonalCalcListNextIndex + (i + 1) =
                                  (s.diagonalCalcListNextIndex + 1) + i := by omega
                              rw [hixeq]
                              exact hki
                            · rwa [diagUnitOk_adv] at hok
                      · intro hnone
                        have hixeq : s.diagonalCalcListNextIndex + (j + 1) =
                            (s.diagonalCalcListNextIndex + 1) + j := by omega
                        rw [hixeq] at hnone
                        exact hnone2 hnone
                      · intro kj hkj
                        have hixeq : s.diagonalCalcListNextIndex + (j + 1) =
                            (s.diagonalCalcListNextIndex + 1) + j := by omega
                        rw [hixeq] at hkj
                        have := hsome2 kj hkj
                        rwa [diagUnitOk_adv] at this

/-! ### Wrapper lemmas and derived facts -/

theorem ratioToInt_int (n mx : Int) : ratioToInt (.int n) mx = .ok n := rfl

theorem ratioToInt_float_one (mx : Int) : ratioToInt (.float 1) mx = .ok mx := by
  rw [ratioToInt, if_neg (by norm_num), one_mul, Int.ceil_intCast]

/-- `calculate_columns` after both progress arguments resolved and the scratch
buffer allocated: just the loop. -/
theorem calcColumns_resolved (env : GenEnv) (s : Calc) (stv upto : RatioOrInt)
    (st up : Int) (h1 : ratioToInt stv s.numSeriesSubseq = .ok st)
    (h2 : ratioToInt upto s.numSeriesSubseq = .ok up)
    (hq : 0 ≤ s.numQuerySubseq) :
    calcColumns env s (some stv) upto = calcColumnsGo env (up - st).toNat s st := by
  rw [calcColumns, h1, h2]
  dsimp only
  rw [if_neg (by omega : ¬ s.numQuerySubseq < 0)]

/-- Omitting `start` is exactly starting one past the high-water mark. -/
theorem calcColumns_none (env : GenEnv) (s : Calc) (upto : RatioOrInt) :
    calcColumns env s none upto =
      calcColumns env s (some (.int (s.lastColumnCalculated + 1))) upto := rfl

/-- `calculate_diagonals` after the buffer allocation and target resolution:
just the loop, with the pending-order fuel. -/
theorem calcDiagonals_resolved (env : GenEnv) (s : Calc) (amount : RatioOrInt)
    (needed : Int) (h1 : ratioToInt amount s.diagonalValuesTotal = .ok needed)
    (hq : 0 ≤ min s.numQuerySubseq s.numSeriesSubseq) :
    calcDiagonals env s amount =
      calcDiagonalsGo env
        (s.diagonalCalcOrder.length - s.diagonalCalcListNextIndex) s needed := by
  rw [calcDiagonals, if_neg (by omega), h1]

/-- The diagonal loop never touches the precomputed order, whatever the
environment does. -/
theorem calcDiagonalsGo_order (env : GenEnv) :
    ∀ (fuel : Nat) (s : Calc) (needed : Int),
      ((calcDiagonalsGo env fuel s needed).state).diagonalCalcOrder =
        s.diagonalCalcOrder := by
  intro fuel
  induction fuel with
  | zero =>
      intro s needed
      rw [calcDiagonalsGo]
      by_cases hlt : s.diagonalValuesCalculated < needed
      · rw [if_pos hlt]; rfl
      · rw [if_neg hlt]; rfl
  | succ fuel ih =>
      intro s needed
      rw [calcDiagonalsGo]
      by_cases hlt : s.diagonalValuesCalculated < needed
      case neg => rw [if_neg hlt]; rfl
      case pos =>
          rw [if_pos hlt]
          cases hget : s.diagonalCalcOrder.get? s.diagonalCalcListNextIndex with
          | none => rfl
          | some k =>
              dsimp only
              cases hgen : genPhase s.numGens (fun id => env.genDiag id k) s.neededIds with
              | error e => rfl
              | ok u =>
                  cases u
                  cases hcons : consPhaseDiag env s k 0 s.consumers with
                  | error p =>
                      obtain ⟨e0, ds0⟩ := p
                      rfl
                  | ok ds =>
                      dsimp only
                      rw [RunResult.state_prepend, ih]

theorem diagTrace_eq_flatMap (env : GenEnv) (s : Calc) :
    ∀ ks : List Int, diagTrace env s ks = ks.flatMap (diagDeliverAll env s) := by
  intro ks
  induction ks with
  | nil => rfl
  | cons k ks ih => rw [diagTrace, ih, List.flatMap_cons]

theorem diagDeliverAll_selfJoin (env : GenEnv) (s : Calc) (hsj : s.selfJoin = true)
    (k : Int) :
    diagDeliverAll env s k =
      s.consumers.enum.flatMap (fun p =>
        [(p.1, k, diagPayload env s k p.2), (p.1, -k, diagPayload env s k p.2)]) := by
  rw [diagDeliverAll]
  congr 1
  funext p
  rw [if_pos hsj]

theorem diagDeliverAll_twoSeries (env : GenEnv) (s : Calc) (hsj : s.selfJoin = false)
    (k : Int) :
    diagDeliverAll env s k =
      s.consumers.enum.map (fun p => (p.1, k, diagPayload env s k p.2)) := by
  rw [diagDeliverAll]
  have aux : ∀ (l : List (Nat × List Nat)),
      (l.flatMap fun p => (p.1, k, diagPayload env s k p.2) ::
        (if s.selfJoin = true then [(p.1, -k, diagPayload env s k p.2)] else [])) =
      l.map (fun p => (p.1, k, diagPayload env s k p.2)) := by
    intro l
    induction l with
    | nil => rfl
    | cons p ps ih =>
        rw [List.flatMap_cons, ih, if_neg (by simp [hsj])]
        rfl
  exact aux s.consumers.enum

theorem snd_mem_of_mem_enumFrom {α : Type} :
    ∀ (l : List α) (i : Nat) (p : Nat × α), p ∈ l.enumFrom i → p.2 ∈ l := by
  intro l
  induction l with
  | nil => intro i p h; simp [List.enumFrom] at h
  | cons x xs ih =>
      intro i p h
      rw [List.enumFrom] at h
      rcases List.mem_cons.mp h with h1 | h1
      · subst h1; exact List.mem_cons_self _ _
      · exact List.mem_cons_of_mem _ (ih (i + 1) p h1)

/-- Every delivery of a column trace is a column payload of some registered
consumer's subscription list. -/
theorem mem_columnTrace (env : GenEnv) (s : Calc) :
    ∀ (n : Nat) (a : Int) (i : Nat) (c : Int) (rows : List (List Val)),
      (i, c, rows) ∈ columnTrace env s a n →
      ∃ ids ∈ s.consumers, rows = columnPayload env s c ids := by
  intro n
  induction n with
  | zero => intro a i c rows h; simp [columnTrace] at h
  | succ n ih =>
      intro a i c rows h
      rw [columnTrace] at h
      rcases List.mem_append.mp h with h1 | h1
      · rw [columnDeliverAll, List.mem_map] at h1
        obtain ⟨p, hp, heq⟩ := h1
        obtain ⟨h1, h2, h3⟩ := Prod.mk.injEq .. ▸ heq
        refine ⟨p.2, snd_mem_of_mem_enumFrom s.consumers 0 p hp, ?_⟩
        cases heq
        rfl
      · exact ih (a + 1) i c rows h1

instance {ε α : Type} [DecidableEq ε] [DecidableEq α] : DecidableEq (Except ε α) :=
  fun x y =>
    match x, y with
    | .ok a, .ok b =>
        if h : a = b then isTrue (by rw [h]) else isFalse (fun hh => by cases hh; exact h rfl)
    | .error a, .error b =>
        if h : a = b then isTrue (by rw [h]) else isFalse (fun hh => by cases hh; exact h rfl)
    | .ok _, .error _ => isFalse (fun hh => by cases hh)
    | .error _, .ok _ => isFalse (fun hh => by cases hh)

/-! ### Concrete fixtures used by the witnesses -/

/-- Fallback state for the fixture extractors (never actually reached). -/
def calcFallback : Calc :=
  { nDim := 0, m := 0, seriesLen := 0, queryLen := 0, selfJoin := false,
    numSeriesSubseq := 0, numQuerySubseq := 0, trivialMatchBuffer := -1,
    numGens := 0, consumers := [], lastColumnCalculated := -1,
    diagonalCalcOrder := [], diagonalCalcListNextIndex := 0,
    diagonalValuesCalculated := 0, diagonalValuesTotal := 0 }

/-- Self-join fixture: series of length 10, `m = 4` (so 7 subsequences and
default buffer 2), one generator on dimension 0, one consumer on channel 0. -/
def exCalc : Calc :=
  match Calculator.init 4 (1, 10) none none with
  | .error _ => calcFallback
  | .ok s =>
      match s.addGenerator 0 with
      | .error _ => calcFallback
      | .ok s1 => s1.addConsumer [0]

/-- Two-series fixture of the spec scenario: series length 8, query length 6,
`m = 3` (subsequence counts 6 and 4, diagonal budget 24). -/
def exS0 : Calc :=
  match Calculator.init 3 (1, 8) (some (1, 6)) none with
  | .error _ => calcFallback
  | .ok s => s

/-- The two-series fixture with one generator and one consumer. -/
def exCalc2 : Calc := { exS0 with consumers := [[0]], numGens := 1 }

/-- Self-join fixture with `trivial_match_buffer = -1`: series length 4,
`m = 2` (3 subsequences, offset 0 is a candidate diagonal). -/
def exCalcSJ : Calc :=
  match Calculator.init 2 (1, 4) none (some (-1)) with
  | .error _ => calcFallback
  | .ok s =>
      match s.addGenerator 0 with
      | .error _ => calcFallback
      | .ok s1 => s1.addConsumer [0]

/-- A generator value table: constant 0. -/
def gEx : Nat → Int → Nat → Val := fun _ _ _ => Val.num 0

/-- A diagonal generator value table: constant 0. -/
def dgEx : Nat → Int → Nat → Val := fun _ _ _ => Val.num 0

/-- An environment whose generator raises on column 1 and diagonal offset 2. -/
def envFail : GenEnv :=
  { genCol := fun _ c => if c = 1 then .error "boom" else .ok (fun _ => Val.num 0),
    genDiag := fun _ k => if k = 2 then .error "diagboom" else .ok (fun _ => Val.num 0),
    consCol := fun _ _ => .ok (),
    consDiag := fun _ _ => .ok () }

/-! ### The claims -/

/-- C1 (counterexample): constructing a two-series `Calculator` with
`m = 3` over a series of length 2 — so `num_series_subseq = 0 <= 0` —
succeeds instead of raising: construction performs no subsequence-count
check in two-series mode. -/
theorem C1_counterexample :
    (Calculator.init 3 (1, 2) (some (1, 5)) none).map Calc.numSeriesSubseq =
      Except.ok 0 := by decide

/-- C1 (amended): construction validates subsequence counts only indirectly
through the self-join `trivial_match_buffer` range check.  In two-series mode
construction succeeds exactly when the dimension counts match — regardless of
the subsequence counts; in self-join mode it succeeds exactly when the buffer
(defaulting to `m div 2`) lies in `[-1, num_series_subseq - 1]`, so a
non-positive count raises only when the effective buffer is at least 0. -/
theorem C1_amended_init_success_iff :
    (∀ (m : Int) (sd sl qd ql : Nat) (tmbArg : Option Int),
      (Calculator.init m (sd, sl) (some (qd, ql)) tmbArg).isOk = true ↔ sd = qd) ∧
    (∀ (m : Int) (sd sl : Nat) (tmbArg : Option Int),
      (Calculator.init m (sd, sl) none tmbArg).isOk = true ↔
        (-1 ≤ tmbArg.getD (Int.fdiv m 2) ∧
          tmbArg.getD (Int.fdiv m 2) < (sl : Int) - m + 1)) := by
  constructor
  · intro m sd sl qd ql tmbArg
    by_cases h : sd = qd
    · subst h
      simp [Calculator.init, Except.isOk, Except.toBool]
    · simp [Calculator.init, h, Except.isOk, Except.toBool]
  · intro m sd sl tmbArg
    by_cases h : -1 ≤ tmbArg.getD (Int.fdiv m 2) ∧
        tmbArg.getD (Int.fdiv m 2) < (sl : Int) - m + 1
    · simp [Calculator.init, h, Except.isOk, Except.toBool]
    · simp [Calculator.init, h, Except.isOk, Except.toBool]

/-- C7: `_ratio_to_int` is a pure resolver — integers pass through unchanged,
floats in `[0, 1]` resolve by ceiling against the maximum
(`resolve(0.5, 10) = 5`, `resolve(0.34, 10) = 4`), floats outside `[0, 1]` and
non-int-non-float values raise — and in `calculate_columns` /
`calculate_diagonals` an invalid progress argument raises before any
generator or consumer is invoked: the call fails with the untouched state, an
empty delivery trace, and a result independent of the environment. -/
theorem C7_ratio_resolver_pure :
    (∀ n mx : Int, ratioToInt (.int n) mx = .ok n) ∧
    (∀ (q : ℚ) (mx : Int), 0 ≤ q → q ≤ 1 →
      ratioToInt (.float q) mx = .ok ⌈q * (mx : ℚ)⌉) ∧
    (∀ (q : ℚ) (mx : Int), q < 0 ∨ 1 < q →
      ratioToInt (.float q) mx = .error "Value should be in range [0, 1].") ∧
    (∀ mx : Int, ratioToInt .other mx = .error "Invalid type, should be int or float.") ∧
    ratioToInt (.float (1 / 2)) 10 = .ok 5 ∧
    ratioToInt (.float (17 / 50)) 10 = .ok 4 ∧
    (∀ (env env2 : GenEnv) (s : Calc) (v upto : RatioOrInt),
      (ratioToInt v s.numSeriesSubseq).isOk = false →
      ∃ e, calcColumns env s (some v) upto = .err e s [] ∧
        calcColumns env2 s (some v) upto = .err e s []) ∧
    (∀ (env env2 : GenEnv) (s : Calc) (a : Int) (v : RatioOrInt),
      (ratioToInt v s.numSeriesSubseq).isOk = false →
      ∃ e, calcColumns env s (some (.int a)) v = .err e s [] ∧
        calcColumns env2 s (some (.int a)) v = .err e s []) ∧
    (∀ (env env2 : GenEnv) (s : Calc) (v : RatioOrInt),
      0 ≤ min s.numQuerySubseq s.numSeriesSubseq →
      (ratioToInt v s.diagonalValuesTotal).isOk = false →
      ∃ e, calcDiagonals env s v = .err e s [] ∧ calcDiagonals env2 s v = .err e s []) := by
  refine ⟨fun n mx => rfl, ?_, ?_, fun mx => rfl, ?_, ?_, ?_, ?_, ?_⟩
  · intro q mx hq0 hq1
    rw [ratioToInt, if_neg (not_or.mpr ⟨not_lt.mpr hq0, not_lt.mpr hq1⟩)]
  · intro q mx h
    rw [ratioToInt, if_pos (by rcases h with h | h; exact Or.inl h; exact Or.inr h)]
  · rw [ratioToInt, if_neg (by norm_num)]
    norm_num
  · rw [ratioToInt, if_neg (by norm_num)]
    congr 1
    rw [show (17 / 50 : ℚ) * ((10 : Int) : ℚ) = 17 / 5 by norm_num]
    norm_num [Int.ceil_eq_iff]
  · intro env env2 s v upto h
    cases hres : ratioToInt v s.numSeriesSubseq with
    | ok x => rw [hres] at h; simp [Except.isOk, Except.toBool] at h
    | error e =>
        refine ⟨e, ?_, ?_⟩ <;> (rw [calcColumns, hres])
  · intro env env2 s a v h
    cases hres : ratioToInt v s.numSeriesSubseq with
    | ok x => rw [hres] at h; simp [Except.isOk, Except.toBool] at h
    | error e =>
        refine ⟨e, ?_, ?_⟩ <;> (rw [calcColumns, ratioToInt_int, hres])
  · intro env env2 s v hmin h
    cases hres : ratioToInt v s.diagonalValuesTotal with
    | ok x => rw [hres] at h; simp [Except.isOk, Except.toBool] at h
    | error e =>
        refine ⟨e, ?_, ?_⟩ <;> (rw [calcDiagonals, if_neg (by omega), hres])

/-- C7 (witness): the pure-float branch applied at `0.34` against maximum 10,
together with the pre-loop failure of a malformed `upto` on the self-join
fixture. -/
theorem C7_witness :
    ratioToInt (.float (17 / 50)) 10 = .ok ⌈(17 / 50 : ℚ) * ((10 : Int) : ℚ)⌉ ∧
    (∃ e, calcColumns (pureEnv gEx dgEx) exCalc (some .other) (.int 3) =
        .err e exCalc [] ∧
      calcColumns envFail exCalc (some .other) (.int 3) = .err e exCalc []) :=
  ⟨C7_ratio_resolver_pure.2.1 (17 / 50) 10 (by norm_num) (by norm_num),
    C7_ratio_resolver_pure.2.2.2.2.2.2.1 (pureEnv gEx dgEx) envFail exCalc .other
      (.int 3) (by decide)⟩

/-- C10: the column high-water mark is monotone across any call — it never
decreases even on failure or when an explicit `start` below the mark is given
(the update is `max(current_column, previous)`), and a call with `start`
omitted behaves exactly like one starting one past the highest column ever
completed. -/
theorem C10_last_column_monotone :
    (∀ (env : GenEnv) (s : Calc) (start : Option RatioOrInt) (upto : RatioOrInt),
      s.lastColumnCalculated ≤
        (calcColumns env s start upto).state.lastColumnCalculated) ∧
    (∀ (g dg : Nat → Int → Nat → Val) (s : Calc), ConsumersValid s →
      0 ≤ s.numQuerySubseq → ∀ a b : Int,
      (calcColumns (pureEnv g dg) s (some (.int a)) (.int b)).state.lastColumnCalculated =
        if a < b then max (b - 1) s.lastColumnCalculated
        else s.lastColumnCalculated) ∧
    (∀ (env : GenEnv) (s : Calc) (upto : RatioOrInt),
      calcColumns env s none upto =
        calcColumns env s (some (.int (s.lastColumnCalculated + 1))) upto) := by
  refine ⟨?_, ?_, fun env s upto => rfl⟩
  · intro env s start upto
    rw [calcColumns.eq_def]
    cases start with
    | none =>
        dsimp only
        cases hres : ratioToInt (.int (s.lastColumnCalculated + 1)) s.numSeriesSubseq with
        | error e => exact le_refl _
        | ok st =>
            cases hres2 : ratioToInt upto s.numSeriesSubseq with
            | error e => exact le_refl _
            | ok up =>
                dsimp only
                by_cases hq : s.numQuerySubseq < 0
                · rw [if_pos hq]; exact le_refl _
                · rw [if_neg hq]; exact calcColumnsGo_last_mono env _ s st
    | some v =>
        dsimp only
        cases hres : ratioToInt v s.numSeriesSubseq with
        | error e => exact le_refl _
        | ok st =>
            cases hres2 : ratioToInt upto s.numSeriesSubseq with
            | error e => exact le_refl _
            | ok up =>
                dsimp only
                by_cases hq : s.numQuerySubseq < 0
                · rw [if_pos hq]; exact le_refl _
                · rw [if_neg hq]; exact calcColumnsGo_last_mono env _ s st
  · intro g dg s hv hq a b
    rw [calcColumns_int_pure g dg s hv hq a b]
    rw [RunResult.state]
    simp only [lastMark]
    split_ifs <;> omega

/-- C10 (witness): a re-run below the mark on the self-join fixture — after
columns 0-2 are done, calculating `[0, 1)` again leaves the mark at 2. -/
theorem C10_witness :
    (calcColumns (pureEnv gEx dgEx)
        { exCalc with lastColumnCalculated := 2 } (some (.int 0))
        (.int 1)).state.lastColumnCalculated =
      if (0 : Int) < 1 then
        max (1 - 1) ({ exCalc with lastColumnCalculated := 2 }).lastColumnCalculated
      else ({ exCalc with lastColumnCalculated := 2 }).lastColumnCalculated :=
  C10_last_column_monotone.2.1 gEx dgEx { exCalc with lastColumnCalculated := 2 }
    (by decide) (by decide) 0 1

/-- List-level statement of resumability: a partial pass up to `x` followed by
a pass resuming from the updated high-water mark covers exactly the columns of
a single full pass, provided `x` does not exceed the full width. -/
theorem columnTrace_resume (env : GenEnv) (s : Calc) (l x w : Int) (hx : x ≤ w) :
    columnTrace env s (l + 1) (x - (l + 1)).toNat ++
      columnTrace env s (lastMark l (l + 1) (x - (l + 1)).toNat + 1)
        (w - (lastMark l (l + 1) (x - (l + 1)).toNat + 1)).toNat =
    columnTrace env s (l + 1) (w - (l + 1)).toNat := by
  by_cases hcase : l + 1 < x
  · have hn1 : (x - (l + 1)).toNat ≠ 0 := by omega
    have hlast : lastMark l (l + 1) (x - (l + 1)).toNat = x - 1 := by
      simp only [lastMark, if_neg hn1]
      push_cast
      omega
    rw [hlast]
    have hx1 : x - 1 + 1 = x := by omega
    rw [hx1]
    have hsplit : (w - (l + 1)).toNat = (x - (l + 1)).toNat + (w - x).toNat := by omega
    rw [hsplit, columnTrace_append]
    have hb : l + 1 + ((x - (l + 1)).toNat : Int) = x := by omega
    rw [hb]
  · have hn1 : (x - (l + 1)).toNat = 0 := by omega
    rw [hn1, lastMark]
    simp only [if_pos rfl]
    rw [columnTrace]
    rfl

/-- C2: splitting a column range into two consecutive calls — explicit
`[a, b)` then `[b, c)`, or `upto = x` then a call with `start` omitted —
delivers to the consumers exactly the same ordered sequence of
`process_column` calls as the single combined call. -/
theorem C2_split_columns :
    (∀ (g dg : Nat → Int → Nat → Val) (s : Calc), ConsumersValid s →
      0 ≤ s.numQuerySubseq → ∀ a b c : Int, a ≤ b → b ≤ c →
      (calcColumns (pureEnv g dg) s (some (.int a)) (.int b)).trace ++
        (calcColumns (pureEnv g dg)
          (calcColumns (pureEnv g dg) s (some (.int a)) (.int b)).state
          (some (.int b)) (.int c)).trace =
      (calcColumns (pureEnv g dg) s (some (.int a)) (.int c)).trace) ∧
    (∀ (g dg : Nat → Int → Nat → Val) (s : Calc), ConsumersValid s →
      0 ≤ s.numQuerySubseq → ∀ (u : RatioOrInt) (x : Int),
      ratioToInt u s.numSeriesSubseq = .ok x → x ≤ s.numSeriesSubseq →
      (calcColumns (pureEnv g dg) s none u).trace ++
        (calcColumns (pureEnv g dg) (calcColumns (pureEnv g dg) s none u).state
          none (.float 1)).trace =
      (calcColumns (pureEnv g dg) s none (.float 1)).trace) := by
  constructor
  · intro g dg s hv hq a b c hab hbc
    rw [calcColumns_int_pure g dg s hv hq a b]
    dsimp only [RunResult.state, RunResult.trace]
    have e2 : calcColumns (pureEnv g dg)
        { s with lastColumnCalculated := lastMark s.lastColumnCalculated a (b - a).toNat }
        (some (.int b)) (.int c) =
        .ok { s with lastColumnCalculated :=
                lastMark (lastMark s.lastColumnCalculated a (b - a).toNat) b (c - b).toNat }
          (columnTrace (pureEnv g dg) s b (c - b).toNat) := by
      rw [calcColumns_int_pure g dg
        { s with lastColumnCalculated := lastMark s.lastColumnCalculated a (b - a).toNat }
        hv hq b c, columnTrace_setLast]
    rw [e2]
    rw [calcColumns_int_pure g dg s hv hq a c]
    dsimp only [RunResult.trace]
    have hsplit : (c - a).toNat = (b - a).toNat + (c - b).toNat := by omega
    rw [hsplit, columnTrace_append]
    have hb : a + ((b - a).toNat : Int) = b := by omega
    rw [hb]
  · intro g dg s hv hq u x hu hx
    have e1 : calcColumns (pureEnv g dg) s none u =
        .ok { s with lastColumnCalculated := (lastMark s.lastColumnCalculated (s.lastColumnCalculated + 1) (x - (s.lastColumnCalculated + 1)).toNat) }
          (columnTrace (pureEnv g dg) s (s.lastColumnCalculated + 1)
            (x - (s.lastColumnCalculated + 1)).toNat) := by
      rw [calcColumns_none, calcColumns_resolved (pureEnv g dg) s
        (.int (s.lastColumnCalculated + 1)) u (s.lastColumnCalculated + 1) x
        (ratioToInt_int _ _) hu hq]
      exact calcColumnsGo_pure g dg _ s _ hv
    have e3 : calcColumns (pureEnv g dg) s none (.float 1) =
        .ok { s with lastColumnCalculated := (lastMark s.lastColumnCalculated (s.lastColumnCalculated + 1) (s.numSeriesSubseq - (s.lastColumnCalculated + 1)).toNat) }
          (columnTrace (pureEnv g dg) s (s.lastColumnCalculated + 1)
            (s.numSeriesSubseq - (s.lastColumnCalculated + 1)).toNat) := by
      rw [calcColumns_none, calcColumns_resolved (pureEnv g dg) s
        (.int (s.lastColumnCalculated + 1)) (.float 1) (s.lastColumnCalculated + 1)
        s.numSeriesSubseq (ratioToInt_int _ _) (ratioToInt_float_one _) hq]
      exact calcColumnsGo_pure g dg _ s _ hv
    have e2 : calcColumns (pureEnv g dg)
        { s with lastColumnCalculated := (lastMark s.lastColumnCalculated (s.lastColumnCalculated + 1) (x - (s.lastColumnCalculated + 1)).toNat) } none (.float 1) =
        .ok { s with lastColumnCalculated :=
                (lastMark (lastMark s.lastColumnCalculated (s.lastColumnCalculated + 1) (x - (s.lastColumnCalculated + 1)).toNat) ((lastMark s.lastColumnCalculated (s.lastColumnCalculated + 1) (x - (s.lastColumnCalculated + 1)).toNat) + 1) (s.numSeriesSubseq - ((lastMark s.lastColumnCalculated (s.lastColumnCalculated + 1) (x - (s.lastColumnCalculated + 1)).toNat) + 1)).toNat) }
          (columnTrace (pureEnv g dg) s ((lastMark s.lastColumnCalculated (s.lastColumnCalculated + 1) (x - (s.lastColumnCalculated + 1)).toNat) + 1)
            (s.numSeriesSubseq - ((lastMark s.lastColumnCalculated (s.lastColumnCalculated + 1) (x - (s.lastColumnCalculated + 1)).toNat) + 1)).toNat) := by
      rw [calcColumns_none, calcColumns_resolved (pureEnv g dg)
        { s with lastColumnCalculated := (lastMark s.lastColumnCalculated (s.lastColumnCalculated + 1) (x - (s.lastColumnCalculated + 1)).toNat) }
        (.int ((lastMark s.lastColumnCalculated (s.lastColumnCalculated + 1) (x - (s.lastColumnCalculated + 1)).toNat) + 1)) (.float 1) ((lastMark s.lastColumnCalculated (s.lastColumnCalculated + 1) (x - (s.lastColumnCalculated + 1)).toNat) + 1)
        s.numSeriesSubseq (ratioToInt_int _ _) (ratioToInt_float_one _) hq]
      rw [calcColumnsGo_pure g dg _
        { s with lastColumnCalculated := (lastMark s.lastColumnCalculated (s.lastColumnCalculated + 1) (x - (s.lastColumnCalculated + 1)).toNat) } _ hv]
      rw [columnTrace_setLast]
    rw [e1]
    dsimp only [RunResult.state, RunResult.trace]
    rw [e2, e3]
    dsimp only [RunResult.trace]
    exact columnTrace_resume (pureEnv g dg) s s.lastColumnCalculated x
      s.numSeriesSubseq hx

/-- C2 (witness): splitting `[0, 2)` at 1 on the self-join fixture. -/
theorem C2_witness :
    (calcColumns (pureEnv gEx dgEx) exCalc (some (.int 0)) (.int 1)).trace ++
      (calcColumns (pureEnv gEx dgEx)
        (calcColumns (pureEnv gEx dgEx) exCalc (some (.int 0)) (.int 1)).state
        (some (.int 1)) (.int 2)).trace =
    (calcColumns (pureEnv gEx dgEx) exCalc (some (.int 0)) (.int 2)).trace :=
  C2_split_columns.1 gEx dgEx exCalc (by decide) (by decide) 0 1 2
    (by decide) (by decide)

theorem calcColumns_negdim (env : GenEnv) (s : Calc) (a up : Int)
    (h : s.numQuerySubseq < 0) :
    calcColumns env s (some (.int a)) (.int up) =
      .err "ValueError: negative dimensions are not allowed" s [] := by
  simp only [calcColumns, ratioToInt, if_pos h]

/-- C3: in self-join mode with `trivial_match_buffer = b >= 0`, every buffer a
consumer receives for a delivered column `c` carries `+inf` at every in-range
position of the window `[max(0, c-b), c+b+1)`, in every channel row; at
construction, two-series mode forces the buffer to `-1`, and with buffer `-1`
no position is overwritten — every delivered row is the generator's raw
column. -/
theorem C3_trivial_match_masking :
    (∀ (g dg : Nat → Int → Nat → Val) (s : Calc) (b : Int),
      ConsumersValid s → s.selfJoin = true → s.trivialMatchBuffer = b → 0 ≤ b →
      ∀ (a up : Int) (i : Nat) (c : Int) (rows : List (List Val)),
        (i, c, rows) ∈ (calcColumns (pureEnv g dg) s (some (.int a)) (.int up)).trace →
        ∀ row ∈ rows, ∀ j : Nat,
          max 0 (c - b) ≤ (j : Int) → (j : Int) < c + b + 1 →
          (j : Int) < s.numQuerySubseq →
          row.get? j = some Val.inf) ∧
    (∀ (m : Int) (sd sl qd ql : Nat) (tmbArg : Option Int) (s : Calc),
      Calculator.init m (sd, sl) (some (qd, ql)) tmbArg = .ok s →
      s.trivialMatchBuffer = -1) ∧
    (∀ (g dg : Nat → Int → Nat → Val) (s : Calc),
      ConsumersValid s → s.trivialMatchBuffer = -1 →
      ∀ (a up : Int) (i : Nat) (c : Int) (rows : List (List Val)),
        (i, c, rows) ∈ (calcColumns (pureEnv g dg) s (some (.int a)) (.int up)).trace →
        ∀ row ∈ rows, ∃ id : Nat,
          row = (List.range s.numQuerySubseq.toNat).map (g id c)) := by
  refine ⟨?_, ?_, ?_⟩
  · intro g dg s b hv hsj htm hb a up i c rows hmem row hrow j hj1 hj2 hj3
    by_cases hq : 0 ≤ s.numQuerySubseq
    case neg =>
        rw [calcColumns_negdim _ s a up (by omega)] at hmem
        simp [RunResult.trace] at hmem
    case pos =>
        rw [calcColumns_int_pure g dg s hv hq a up] at hmem
        dsimp only [RunResult.trace] at hmem
        obtain ⟨ids, hids, hrows⟩ :=
          mem_columnTrace (pureEnv g dg) s _ a i c rows hmem
        subst hrows
        rw [columnPayload, List.mem_map] at hrow
        obtain ⟨id, hid, hrow⟩ := hrow
        subst hrow
        have hjlt : j < s.numQuerySubseq.toNat := by omega
        rw [columnRow, List.get?_eq_getElem?, List.getElem?_map,
          List.getElem?_range hjlt]
        have hmask : 0 ≤ s.trivialMatchBuffer ∧ maskLo s c ≤ (j : Int) ∧
            (j : Int) < maskHi s c := by
          refine ⟨by omega, ?_, ?_⟩
          · rw [maskLo, htm]
            exact hj1
          · rw [maskHi, htm]
            have hpos : ¬ c + b + 1 < 0 := by omega
            rw [if_neg hpos]
            exact hj2
        dsimp only [Option.map]
        rw [columnEntry, if_pos hmask]
  · intro m sd sl qd ql tmbArg s hinit
    by_cases h : sd = qd
    · subst h
      have hne : ¬ ((sd, sl).1 ≠ ((some (sd, ql)).getD (sd, sl)).1) :=
        not_not_intro rfl
      rw [Calculator.init, if_neg hne] at hinit
      simp only [Option.isNone_some, Option.getD_some, Bool.false_eq_true,
        if_false, Except.ok.injEq] at hinit
      rw [← hinit]
    · simp [Calculator.init, h] at hinit
  · intro g dg s hv htm a up i c rows hmem row hrow
    by_cases hq : 0 ≤ s.numQuerySubseq
    case neg =>
        rw [calcColumns_negdim _ s a up (by omega)] at hmem
        simp [RunResult.trace] at hmem
    case pos =>
        rw [calcColumns_int_pure g dg s hv hq a up] at hmem
        dsimp only [RunResult.trace] at hmem
        obtain ⟨ids, hids, hrows⟩ :=
          mem_columnTrace (pureEnv g dg) s _ a i c rows hmem
        subst hrows
        rw [columnPayload, List.mem_map] at hrow
        obtain ⟨id, hid, hrow⟩ := hrow
        subst hrow
        refine ⟨id, ?_⟩
        rw [columnRow]
        apply List.map_congr_left
        intro j hjmem
        rw [columnEntry, if_neg (by rw [htm]; simp)]
        rfl

/-- C3 (witness): on the self-join fixture (buffer 2), position 1 of the
delivered column-0 buffer is masked to infinity. -/
theorem C3_witness :
    [Val.inf, Val.inf, Val.inf, Val.num 0, Val.num 0, Val.num 0,
      Val.num 0].get? 1 = some Val.inf :=
  C3_trivial_match_masking.1 gEx dgEx exCalc 2 (by decide) (by decide) (by decide)
    (by decide) 0 1 0 0
    [[Val.inf, Val.inf, Val.inf, Val.num 0, Val.num 0, Val.num 0, Val.num 0]]
    (by decide)
    [Val.inf, Val.inf, Val.inf, Val.num 0, Val.num 0, Val.num 0, Val.num 0]
    (by decide) 1 (by decide) (by decide) (by decide)

/-- Normal form of a successful two-series construction. -/
theorem init_ok_twoSeries (m : Int) (sd sl ql : Nat) (tmbArg : Option Int) :
    Calculator.init m (sd, sl) (some (sd, ql)) tmbArg = .ok
      { nDim := sd, m := m, seriesLen := sl, queryLen := ql, selfJoin := false,
        numSeriesSubseq := (sl : Int) - m + 1,
        numQuerySubseq := (ql : Int) - m + 1,
        trivialMatchBuffer := -1, numGens := 0, consumers := [],
        lastColumnCalculated := -1,
        diagonalCalcOrder :=
          shuffleSeed0 (intRange (-((ql : Int) - m + 1) + 1) ((sl : Int) - m + 1)),
        diagonalCalcListNextIndex := 0, diagonalValuesCalculated := 0,
        diagonalValuesTotal := ((ql : Int) - m + 1) * ((sl : Int) - m + 1) } := by
  have hne : ¬ ((sd, sl).1 ≠ ((some (sd, ql)).getD (sd, sl)).1) := not_not_intro rfl
  rw [Calculator.init, if_neg hne]
  rfl

/-- Normal form of a successful self-join construction. -/
theorem init_ok_selfJoin (m : Int) (sd sl : Nat) (tmbArg : Option Int)
    (h : -1 ≤ tmbArg.getD (Int.fdiv m 2) ∧
      tmbArg.getD (Int.fdiv m 2) < (sl : Int) - m + 1) :
    Calculator.init m (sd, sl) none tmbArg = .ok
      { nDim := sd, m := m, seriesLen := sl, queryLen := sl, selfJoin := true,
        numSeriesSubseq := (sl : Int) - m + 1,
        numQuerySubseq := (sl : Int) - m + 1,
        trivialMatchBuffer := tmbArg.getD (Int.fdiv m 2), numGens := 0,
        consumers := [], lastColumnCalculated := -1,
        diagonalCalcOrder :=
          shuffleSeed0 (intRange (tmbArg.getD (Int.fdiv m 2) + 1) ((sl : Int) - m + 1)),
        diagonalCalcListNextIndex := 0, diagonalValuesCalculated := 0,
        diagonalValuesTotal :=
          (((sl : Int) - m + 1) - tmbArg.getD (Int.fdiv m 2) - 1) *
            ((((sl : Int) - m + 1) - tmbArg.getD (Int.fdiv m 2) - 1) + 1) / 2 } := by
  have hne : ¬ ((sd, sl).1 ≠ ((none : Option (Nat × Nat)).getD (sd, sl)).1) :=
    not_not_intro rfl
  rw [Calculator.init, if_neg hne]
  dsimp only [Option.isNone_none, Option.getD_none]
  rw [if_pos rfl, if_pos h]
  rfl

theorem diagLength_nonneg (q s k : Int) : 0 ≤ diagLength q s k := le_max_left 0 _

theorem sumLens_nonneg (s : Calc) (ks : List Int) : 0 ≤ sumLens s ks := by
  apply List.sum_nonneg
  intro x hx
  rw [List.mem_map] at hx
  obtain ⟨k, _, rfl⟩ := hx
  exact diagLength_nonneg _ _ _

theorem sumLens_take_le (s : Calc) (ks : List Int) (j : Nat) :
    sumLens s (ks.take j) ≤ sumLens s ks := by
  have key : sumLens s ks = sumLens s (ks.take j) + sumLens s (ks.drop j) := by
    conv_lhs => rw [← List.take_append_drop j ks]
    simp only [sumLens, List.map_append, List.sum_append]
  have h := sumLens_nonneg s (ks.drop j)
  omega

/-- A full diagonal run (`partial = 1.0`) from a fresh cursor, when the total
budget equals the summed length of the whole precomputed order: it finishes
without raising and the cumulative value counter lands exactly on the
budget. -/
theorem fullDiagRun (g dg : Nat → Int → Nat → Val) (s : Calc)
    (hv : ConsumersValid s)
    (hidx : s.diagonalCalcListNextIndex = 0)
    (hcalc : s.diagonalValuesCalculated = 0)
    (hq : 0 ≤ s.numQuerySubseq) (hs : 0 ≤ s.numSeriesSubseq)
    (hsum : sumLens s s.diagonalCalcOrder = s.diagonalValuesTotal) :
    (calcDiagonals (pureEnv g dg) s (.float 1)).isOk = true ∧
    (calcDiagonals (pureEnv g dg) s (.float 1)).state.diagonalValuesCalculated =
      s.diagonalValuesTotal := by
  rw [calcDiagonals_resolved (pureEnv g dg) s (.float 1) s.diagonalValuesTotal
    (ratioToInt_float_one _) (by omega)]
  obtain ⟨j, hstate, htrace, hmin, hok, herr⟩ :=
    calcDiagonalsGo_pure g dg
      (s.diagonalCalcOrder.length - s.diagonalCalcListNextIndex) s
      s.diagonalValuesTotal hv rfl
  have hdrop0 : s.diagonalCalcOrder.drop s.diagonalCalcListNextIndex =
      s.diagonalCalcOrder := by
    rw [hidx, List.drop_zero]
  cases hok2 : (calcDiagonalsGo (pureEnv g dg)
      (s.diagonalCalcOrder.length - s.diagonalCalcListNextIndex) s
      s.diagonalValuesTotal).isOk with
  | false =>
      exfalso
      obtain ⟨hdone, hlt⟩ := herr hok2
      have hlen : s.diagonalCalcOrder.length ≤ s.diagonalCalcListNextIndex + j := by
        have := List.drop_eq_nil_iff.mp hdone
        omega
      have htake : (s.diagonalCalcOrder.drop s.diagonalCalcListNextIndex).take j =
          s.diagonalCalcOrder := by
        rw [hdrop0]
        exact List.take_of_length_le (by omega)
      rw [htake, hsum, hcalc] at hlt
      omega
  | true =>
      refine ⟨rfl, ?_⟩
      have hub : sumLens s ((s.diagonalCalcOrder.drop s.diagonalCalcListNextIndex).take j) ≤
          s.diagonalValuesTotal := by
        rw [hdrop0, ← hsum]
        exact sumLens_take_le s _ j
      have hlb := hok hok2
      rw [hstate]
      rw [diagAdvance]
      dsimp only
      omega

theorem sumLens_shuffle (s : Calc) (cand : List Int)
    (horder : s.diagonalCalcOrder = shuffleSeed0 cand) :
    sumLens s s.diagonalCalcOrder = sumLens s cand := by
  rw [horder, sumLens, sumLens]
  exact ((shuffleSeed0_perm cand).map _).sum_eq

/-- C4: the total diagonal value budget fixed at construction is
`num_query_subseq * num_series_subseq` in two-series mode and the triangular
number of `num_series_subseq - trivial_match_buffer - 1` in self-join mode;
and a full diagonal run (`partial = 1.0`) accumulates delivered diagonal
lengths summing exactly to this budget. -/
theorem C4_diagonal_budget :
    (∀ (m : Int) (sd sl qd ql : Nat) (tmbArg : Option Int) (s : Calc),
      Calculator.init m (sd, sl) (some (qd, ql)) tmbArg = .ok s →
      s.diagonalValuesTotal = s.numQuerySubseq * s.numSeriesSubseq) ∧
    (∀ (m : Int) (sd sl : Nat) (tmbArg : Option Int) (s : Calc),
      Calculator.init m (sd, sl) none tmbArg = .ok s →
      s.diagonalValuesTotal =
        (s.numSeriesSubseq - s.trivialMatchBuffer - 1) *
          ((s.numSeriesSubseq - s.trivialMatchBuffer - 1) + 1) / 2) ∧
    (∀ (g dg : Nat → Int → Nat → Val) (m : Int) (sd sl qd ql : Nat)
       (tmbArg : Option Int) (s0 : Calc) (cs : List (List Nat)) (ng : Nat),
      Calculator.init m (sd, sl) (some (qd, ql)) tmbArg = .ok s0 →
      ConsumersValid { s0 with consumers := cs, numGens := ng } →
      0 ≤ s0.numQuerySubseq → 0 ≤ s0.numSeriesSubseq →
      (calcDiagonals (pureEnv g dg) { s0 with consumers := cs, numGens := ng }
        (.float 1)).isOk = true ∧
      (calcDiagonals (pureEnv g dg) { s0 with consumers := cs, numGens := ng }
        (.float 1)).state.diagonalValuesCalculated = s0.diagonalValuesTotal) ∧
    (∀ (g dg : Nat → Int → Nat → Val) (m : Int) (sd sl : Nat)
       (tmbArg : Option Int) (s0 : Calc) (cs : List (List Nat)) (ng : Nat),
      Calculator.init m (sd, sl) none tmbArg = .ok s0 →
      ConsumersValid { s0 with consumers := cs, numGens := ng } →
      (calcDiagonals (pureEnv g dg) { s0 with consumers := cs, numGens := ng }
        (.float 1)).isOk = true ∧
      (calcDiagonals (pureEnv g dg) { s0 with consumers := cs, numGens := ng }
        (.float 1)).state.diagonalValuesCalculated = s0.diagonalValuesTotal) := by
  refine ⟨?_, ?_, ?_, ?_⟩
  · intro m sd sl qd ql tmbArg s hinit
    by_cases h : sd = qd
    · subst h
      rw [init_ok_twoSeries, Except.ok.injEq] at hinit
      rw [← hinit]
    · simp [Calculator.init, h] at hinit
  · intro m sd sl tmbArg s hinit
    by_cases h : -1 ≤ tmbArg.getD (Int.fdiv m 2) ∧
        tmbArg.getD (Int.fdiv m 2) < (sl : Int) - m + 1
    · rw [init_ok_selfJoin m sd sl tmbArg h, Except.ok.injEq] at hinit
      rw [← hinit]
    · simp [Calculator.init, h] at hinit
  · intro g dg m sd sl qd ql tmbArg s0 cs ng hinit hv hq hs
    by_cases h : sd = qd
    case neg => simp [Calculator.init, h] at hinit
    case pos =>
        subst h
        rw [init_ok_twoSeries, Except.ok.injEq] at hinit
        subst hinit
        refine fullDiagRun g dg _ hv rfl rfl hq hs ?_
        rw [sumLens_shuffle _ (intRange (-((ql : Int) - m + 1) + 1) ((sl : Int) - m + 1)) rfl]
        exact sum_diagLength_full ((ql : Int) - m + 1) ((sl : Int) - m + 1) hq hs
  · intro g dg m sd sl tmbArg s0 cs ng hinit hv
    by_cases h : -1 ≤ tmbArg.getD (Int.fdiv m 2) ∧
        tmbArg.getD (Int.fdiv m 2) < (sl : Int) - m + 1
    case neg => simp [Calculator.init, h] at hinit
    case pos =>
        rw [init_ok_selfJoin m sd sl tmbArg h, Except.ok.injEq] at hinit
        subst hinit
        refine fullDiagRun g dg _ hv rfl rfl
          (show (0 : Int) ≤ (sl : Int) - m + 1 by omega)
          (show (0 : Int) ≤ (sl : Int) - m + 1 by omega) ?_
        rw [sumLens_shuffle _
          (intRange (tmbArg.getD (Int.fdiv m 2) + 1) ((sl : Int) - m + 1)) rfl]
        have h2 := sum_diagLength_selfjoin ((sl : Int) - m + 1)
          (tmbArg.getD (Int.fdiv m 2) + 1) (by omega) (by omega)
        rw [sumLens]
        dsimp only
        have heq : (sl : Int) - m + 1 - (tmbArg.getD (Int.fdiv m 2) + 1) =
            (sl : Int) - m + 1 - tmbArg.getD (Int.fdiv m 2) - 1 := by ring
        rw [heq] at h2
        omega

/-- C4 (witness): the spec scenario — series lengths 8 and 6 with `m = 3`
give subsequence counts 6 and 4 and a diagonal budget of 24, and a full
diagonal run lands the counter exactly on the budget. -/
theorem C4_witness :
    (calcDiagonals (pureEnv gEx dgEx) exCalc2 (.float 1)).isOk = true ∧
    (calcDiagonals (pureEnv gEx dgEx) exCalc2
      (.float 1)).state.diagonalValuesCalculated = exS0.diagonalValuesTotal :=
  C4_diagonal_budget.2.2.1 gEx dgEx 3 1 8 1 6 none exS0 [[0]] 1 (by decide)
    (by decide) (by decide) (by decide)

/-- C5: the diagonal traversal delivers, for every visited offset `k` and
every consumer in registration order, `process_diagonal(k, V)` immediately
followed — in self-join mode — by `process_diagonal(-k, V)` with the identical
payload `V`; in two-series mode only the single `process_diagonal(k, V)` is
delivered. -/
theorem C5_selfjoin_diagonal_mirroring :
    ∀ (g dg : Nat → Int → Nat → Val) (s : Calc) (amount : RatioOrInt),
      ConsumersValid s →
      ∃ j : Nat,
        (s.selfJoin = true →
          (calcDiagonals (pureEnv g dg) s amount).trace =
            ((s.diagonalCalcOrder.drop s.diagonalCalcListNextIndex).take j).flatMap
              (fun k => s.consumers.enum.flatMap (fun p =>
                [(p.1, k, diagPayload (pureEnv g dg) s k p.2),
                 (p.1, -k, diagPayload (pureEnv g dg) s k p.2)]))) ∧
        (s.selfJoin = false →
          (calcDiagonals (pureEnv g dg) s amount).trace =
            ((s.diagonalCalcOrder.drop s.diagonalCalcListNextIndex).take j).flatMap
              (fun k => s.consumers.enum.map
                (fun p => (p.1, k, diagPayload (pureEnv g dg) s k p.2)))) := by
  intro g dg s amount hv
  by_cases hg : min s.numQuerySubseq s.numSeriesSubseq < 0
  · refine ⟨0, ?_, ?_⟩ <;> intro hsj <;>
      (rw [calcDiagonals, if_pos hg]; simp [RunResult.trace])
  · cases hres : ratioToInt amount s.diagonalValuesTotal with
    | error e =>
        refine ⟨0, ?_, ?_⟩ <;> intro hsj <;>
          (rw [calcDiagonals, if_neg hg, hres]; simp [RunResult.trace])
    | ok needed =>
        rw [calcDiagonals_resolved (pureEnv g dg) s amount needed hres (by omega)]
        obtain ⟨j, _, htrace, _, _, _⟩ :=
          calcDiagonalsGo_pure g dg
            (s.diagonalCalcOrder.length - s.diagonalCalcListNextIndex) s needed hv rfl
        refine ⟨j, ?_, ?_⟩ <;> intro hsj
        · rw [htrace, diagTrace_eq_flatMap]
          congr 1
          funext k
          exact diagDeliverAll_selfJoin (pureEnv g dg) s hsj k
        · rw [htrace, diagTrace_eq_flatMap]
          congr 1
          funext k
          exact diagDeliverAll_twoSeries (pureEnv g dg) s hsj k

/-- C5 (witness): one full run on the self-join fixture. -/
theorem C5_witness :
    ∃ j : Nat,
      (exCalc.selfJoin = true →
        (calcDiagonals (pureEnv gEx dgEx) exCalc (.float 1)).trace =
          ((exCalc.diagonalCalcOrder.drop exCalc.diagonalCalcListNextIndex).take j).flatMap
            (fun k => exCalc.consumers.enum.flatMap (fun p =>
              [(p.1, k, diagPayload (pureEnv gEx dgEx) exCalc k p.2),
               (p.1, -k, diagPayload (pureEnv gEx dgEx) exCalc k p.2)]))) ∧
      (exCalc.selfJoin = false →
        (calcDiagonals (pureEnv gEx dgEx) exCalc (.float 1)).trace =
          ((exCalc.diagonalCalcOrder.drop exCalc.diagonalCalcListNextIndex).take j).flatMap
            (fun k => exCalc.consumers.enum.map
              (fun p => (p.1, k, diagPayload (pureEnv gEx dgEx) exCalc k p.2)))) :=
  C5_selfjoin_diagonal_mirroring gEx dgEx exCalc (.float 1) (by decide)

/-- C6: an exception raised by a generator or consumer during a unit
propagates uncaught, and the traversal cursors are exactly those of the last
fully completed unit: for columns, all earlier units of the call completed,
the failing unit's `columnUnitOk` is false, and the final state is the
starting state with the high-water mark advanced only over the completed
columns; for diagonals, the final state is `diagAdvance` over the completed
diagonals, each completed pending offset's unit succeeded, and the failing
position is either past the end of the order (the `IndexError`) or a unit
whose `diagUnitOk` is false. -/
theorem C6_failure_leaves_cursors_at_completed_units :
    (∀ (env : GenEnv) (s : Calc) (stv upto : RatioOrInt) (st up : Int)
       (e : String) (s2 : Calc) (tr : List Delivery),
      ratioToInt stv s.numSeriesSubseq = .ok st →
      ratioToInt upto s.numSeriesSubseq = .ok up →
      0 ≤ s.numQuerySubseq →
      calcColumns env s (some stv) upto = .err e s2 tr →
      ∃ k : Nat,
        (∀ i : Nat, i < k → columnUnitOk env s (st + (i : Int)) = true) ∧
        columnUnitOk env s (st + (k : Int)) = false ∧
        s2 = { s with lastColumnCalculated := lastMark s.lastColumnCalculated st k }) ∧
    (∀ (env : GenEnv) (s : Calc) (amount : RatioOrInt) (needed : Int)
       (e : String) (s2 : Calc) (tr : List Delivery),
      ratioToInt amount s.diagonalValuesTotal = .ok needed →
      0 ≤ min s.numQuerySubseq s.numSeriesSubseq →
      calcDiagonals env s amount = .err e s2 tr →
      ∃ j : Nat,
        s2 = diagAdvance s j ∧
        (∀ i : Nat, i < j → ∃ ki,
          s.diagonalCalcOrder.get? (s.diagonalCalcListNextIndex + i) = some ki ∧
          diagUnitOk env s ki = true) ∧
        (s.diagonalCalcOrder.get? (s.diagonalCalcListNextIndex + j) = none →
          e = "IndexError: index out of range") ∧
        (∀ kj, s.diagonalCalcOrder.get? (s.diagonalCalcListNextIndex + j) = some kj →
          diagUnitOk env s kj = false)) := by
  constructor
  · intro env s stv upto st up e s2 tr h1 h2 hq herr
    rw [calcColumns_resolved env s stv upto st up h1 h2 hq] at herr
    obtain ⟨k, hkn, hunits, hfail, hstate⟩ :=
      calcColumnsGo_err env (up - st).toNat s st e s2 tr herr
    exact ⟨k, hunits, hfail, hstate⟩
  · intro env s amount needed e s2 tr h1 hq herr
    rw [calcDiagonals_resolved env s amount needed h1 (by omega)] at herr
    obtain ⟨j, hs2, _, hunits, hnone, hsome⟩ :=
      calcDiagonalsGo_err env
        (s.diagonalCalcOrder.length - s.diagonalCalcListNextIndex) s needed
        e s2 tr rfl herr
    exact ⟨j, hs2, hunits, hnone, hsome⟩

/-- C6 (witness): a generator that raises on column 1 aborts the run with the
high-water mark still at column 0, the last fully completed unit. -/
theorem C6_witness :
    ∃ k : Nat,
      (∀ i : Nat, i < k → columnUnitOk envFail exCalc ((0 : Int) + (i : Int)) = true) ∧
      columnUnitOk envFail exCalc ((0 : Int) + (k : Int)) = false ∧
      { exCalc with lastColumnCalculated := 0 } =
        { exCalc with
          lastColumnCalculated := lastMark exCalc.lastColumnCalculated 0 k } :=
  C6_failure_leaves_cursors_at_completed_units.1 envFail exCalc (.int 0) (.int 3)
    0 3 "boom" { exCalc with lastColumnCalculated := 0 }
    [(0, 0, [[Val.inf, Val.inf, Val.inf, Val.num 0, Val.num 0, Val.num 0,
      Val.num 0]])]
    (by decide) (by decide) (by decide) (by decide)

/-- C8: the diagonal visit order is computed once at construction — a
permutation (by the deterministic seed-0 shuffle) of the candidate offset
list — and never regenerated: equal construction inputs give identical
orders, a run never modifies the stored order, and every run (full or
partial) visits exactly a prefix of the pending portion of that fixed
order. -/
theorem C8_fixed_diagonal_order :
    (∀ (m : Int) (series : Nat × Nat) (query : Option (Nat × Nat))
       (tmbArg : Option Int) (s1 s2 : Calc),
      Calculator.init m series query tmbArg = .ok s1 →
      Calculator.init m series query tmbArg = .ok s2 →
      s1.diagonalCalcOrder = s2.diagonalCalcOrder) ∧
    (∀ (m : Int) (sd sl qd ql : Nat) (tmbArg : Option Int) (s : Calc),
      Calculator.init m (sd, sl) (some (qd, ql)) tmbArg = .ok s →
      s.diagonalCalcOrder.Perm
        (intRange (-s.numQuerySubseq + 1) s.numSeriesSubseq)) ∧
    (∀ (m : Int) (sd sl : Nat) (tmbArg : Option Int) (s : Calc),
      Calculator.init m (sd, sl) none tmbArg = .ok s →
      s.diagonalCalcOrder.Perm
        (intRange (s.trivialMatchBuffer + 1) s.numSeriesSubseq)) ∧
    (∀ (env : GenEnv) (s : Calc) (amount : RatioOrInt),
      (calcDiagonals env s amount).state.diagonalCalcOrder = s.diagonalCalcOrder) ∧
    (∀ (g dg : Nat → Int → Nat → Val) (s : Calc) (amount : RatioOrInt),
      ConsumersValid s →
      ∃ j : Nat, (calcDiagonals (pureEnv g dg) s amount).trace =
        diagTrace (pureEnv g dg) s
          ((s.diagonalCalcOrder.drop s.diagonalCalcListNextIndex).take j)) := by
  refine ⟨?_, ?_, ?_, ?_, ?_⟩
  · intro m series query tmbArg s1 s2 h1 h2
    rw [h1] at h2
    injection h2 with h
    rw [h]
  · intro m sd sl qd ql tmbArg s hinit
    by_cases h : sd = qd
    · subst h
      rw [init_ok_twoSeries, Except.ok.injEq] at hinit
      subst hinit
      exact shuffleSeed0_perm _
    · simp [Calculator.init, h] at hinit
  · intro m sd sl tmbArg s hinit
    by_cases h : -1 ≤ tmbArg.getD (Int.fdiv m 2) ∧
        tmbArg.getD (Int.fdiv m 2) < (sl : Int) - m + 1
    · rw [init_ok_selfJoin m sd sl tmbArg h, Except.ok.injEq] at hinit
      subst hinit
      exact shuffleSeed0_perm _
    · simp [Calculator.init, h] at hinit
  · intro env s amount
    by_cases hg : min s.numQuerySubseq s.numSeriesSubseq < 0
    · rw [calcDiagonals, if_pos hg]
      rfl
    · cases hres : ratioToInt amount s.diagonalValuesTotal with
      | error e =>
          rw [calcDiagonals, if_neg hg, hres]
          rfl
      | ok needed =>
          rw [calcDiagonals_resolved env s amount needed hres (by omega)]
          exact calcDiagonalsGo_order env _ s needed
  · intro g dg s amount hv
    by_cases hg : min s.numQuerySubseq s.numSeriesSubseq < 0
    · refine ⟨0, ?_⟩
      rw [calcDiagonals, if_pos hg]
      simp [RunResult.trace, diagTrace]
    · cases hres : ratioToInt amount s.diagonalValuesTotal with
      | error e =>
          refine ⟨0, ?_⟩
          rw [calcDiagonals, if_neg hg, hres]
          simp [RunResult.trace, diagTrace]
      | ok needed =>
          rw [calcDiagonals_resolved (pureEnv g dg) s amount needed hres (by omega)]
          obtain ⟨j, _, htrace, _, _, _⟩ :=
            calcDiagonalsGo_pure g dg
              (s.diagonalCalcOrder.length - s.diagonalCalcListNextIndex) s needed hv rfl
          exact ⟨j, htrace⟩

/-- C8 (witness): the stored order of the two-series fixture is a permutation
of the candidate offsets `-3 .. 5`. -/
theorem C8_witness :
    exS0.diagonalCalcOrder.Perm
      (intRange (-exS0.numQuerySubseq + 1) exS0.numSeriesSubseq) :=
  C8_fixed_diagonal_order.2.1 3 1 8 1 6 none exS0 (by decide)

/-- C9: in self-join mode with `trivial_match_buffer = -1` the candidate
order includes offset 0, and when offset 0 is the next diagonal visited,
every consumer receives `process_diagonal(0, V)` twice in succession with the
identical payload (the unconditional mirrored delivery of `-k` coincides with
`k` at 0), while the cumulative value counter grows by the diagonal's length
only once. -/
theorem C9_selfjoin_zero_offset_double_delivery :
    (∀ (m : Int) (sd sl : Nat) (s : Calc),
      Calculator.init m (sd, sl) none (some (-1)) = .ok s →
      1 ≤ s.numSeriesSubseq →
      (0 : Int) ∈ s.diagonalCalcOrder) ∧
    (∀ (g dg : Nat → Int → Nat → Val) (s : Calc),
      ConsumersValid s → s.selfJoin = true →
      1 ≤ s.numQuerySubseq → 1 ≤ s.numSeriesSubseq →
      s.diagonalCalcOrder.get? s.diagonalCalcListNextIndex = some 0 →
      (calcDiagonals (pureEnv g dg) s
          (.int (s.diagonalValuesCalculated + 1))).trace =
        s.consumers.enum.flatMap (fun p =>
          [(p.1, 0, diagPayload (pureEnv g dg) s 0 p.2),
           (p.1, 0, diagPayload (pureEnv g dg) s 0 p.2)]) ∧
      (calcDiagonals (pureEnv g dg) s
          (.int (s.diagonalValuesCalculated + 1))).state.diagonalValuesCalculated =
        s.diagonalValuesCalculated + min s.numQuerySubseq s.numSeriesSubseq) := by
  constructor
  · intro m sd sl s hinit hns
    by_cases h : -1 ≤ (some (-1) : Option Int).getD (Int.fdiv m 2) ∧
        (some (-1) : Option Int).getD (Int.fdiv m 2) < (sl : Int) - m + 1
    · rw [init_ok_selfJoin m sd sl (some (-1)) h, Except.ok.injEq] at hinit
      subst hinit
      dsimp only at hns
      refine ((shuffleSeed0_perm _).mem_iff).mpr ?_
      rw [mem_intRange]
      constructor
      · simp
      · omega
    · exfalso
      have h2 : ¬ (-1 < (sl : Int) - m + 1) := fun hc => h ⟨le_refl _, hc⟩
      simp [Calculator.init] at hinit
      rw [if_neg h2] at hinit
      cases hinit
  · intro g dg s hv hsj hq1 hs1 hget0
    rw [calcDiagonals_resolved (pureEnv g dg) s _
      (s.diagonalValuesCalculated + 1) (ratioToInt_int _ _) (by omega)]
    obtain ⟨j, hstate, htrace, hmin, hok, herr⟩ :=
      calcDiagonalsGo_pure g dg
        (s.diagonalCalcOrder.length - s.diagonalCalcListNextIndex) s
        (s.diagonalValuesCalculated + 1) hv rfl
    have hidx : s.diagonalCalcListNextIndex < s.diagonalCalcOrder.length := by
      by_contra hc
      push_neg at hc
      rw [List.get?_eq_getElem?, List.getElem?_eq_none hc] at hget0
      cases hget0
    have hdropcons : s.diagonalCalcOrder.drop s.diagonalCalcListNextIndex =
        0 :: s.diagonalCalcOrder.drop (s.diagonalCalcListNextIndex + 1) := by
      have h1 := List.drop_eq_getElem_cons hidx
      rw [List.get?_eq_getElem?, List.getElem?_eq_getElem hidx,
        Option.some.injEq] at hget0
      rw [hget0] at h1
      exact h1
    have hlen0 : diagLength s.numQuerySubseq s.numSeriesSubseq 0 =
        min s.numQuerySubseq s.numSeriesSubseq := by
      rw [diagLength]
      omega
    have hsum1 : sumLens s
        ((s.diagonalCalcOrder.drop s.diagonalCalcListNextIndex).take 1) =
        min s.numQuerySubseq s.numSeriesSubseq := by
      rw [hdropcons, List.take_succ_cons, List.take_zero]
      simp [sumLens, hlen0]
    have hj : j = 1 := by
      cases hok2 : (calcDiagonalsGo (pureEnv g dg)
          (s.diagonalCalcOrder.length - s.diagonalCalcListNextIndex) s
          (s.diagonalValuesCalculated + 1)).isOk with
      | false =>
          exfalso
          obtain ⟨hdone, hlt⟩ := herr hok2
          cases j with
          | zero =>
              rw [Nat.add_zero] at hdone
              rw [hdone] at hdropcons
              cases hdropcons
          | succ j =>
              rw [hdropcons, List.take_succ_cons] at hlt
              have hns0 := sumLens_nonneg s
                ((s.diagonalCalcOrder.drop (s.diagonalCalcListNextIndex + 1)).take j)
              simp only [sumLens, List.map_cons, List.sum_cons, hlen0] at hlt
              rw [sumLens] at hns0
              omega
      | true =>
          have hlb := hok hok2
          cases j with
          | zero =>
              simp [sumLens] at hlb
          | succ j =>
              cases j with
              | zero => rfl
              | succ j =>
                  exfalso
                  have h1 := hmin 1 (by omega)
                  rw [hsum1] at h1
                  omega
    subst hj
    constructor
    · rw [htrace, hdropcons, List.take_succ_cons, List.take_zero, diagTrace,
        diagTrace, List.append_nil, diagDeliverAll_selfJoin (pureEnv g dg) s hsj 0]
      simp only [neg_zero]
    · rw [hstate, diagAdvance]
      dsimp only
      rw [hsum1]

/-- C9 (witness): on the buffer `-1` self-join fixture, offset 0 is the first
visited diagonal: the single-step run delivers the consumer its payload twice
and advances the counter by 3 once. -/
theorem C9_witness :
    (calcDiagonals (pureEnv gEx dgEx) exCalcSJ
        (.int (exCalcSJ.diagonalValuesCalculated + 1))).trace =
      exCalcSJ.consumers.enum.flatMap (fun p =>
        [(p.1, 0, diagPayload (pureEnv gEx dgEx) exCalcSJ 0 p.2),
         (p.1, 0, diagPayload (pureEnv gEx dgEx) exCalcSJ 0 p.2)]) ∧
    (calcDiagonals (pureEnv gEx dgEx) exCalcSJ
        (.int (exCalcSJ.diagonalValuesCalculated + 1))).state.diagonalValuesCalculated =
      exCalcSJ.diagonalValuesCalculated +
        min exCalcSJ.numQuerySubseq exCalcSJ.numSeriesSubseq :=
  C9_selfjoin_zero_offset_double_delivery.2 gEx dgEx exCalcSJ (by decide)
    (by decide) (by decide) (by decide) (by decide)
